import Mathlib

/-!
A shallow embedding of the Dify workflow graph engine
(`api/core/workflow/graph_engine/graph_engine.py`) and proofs about it.

The Python source drives a directed graph of nodes with a generator-based
event stream.  We model the engine as a pure, fueled interpreter:

* generators become explicit event lists;
* the shared `GraphRuntimeState` is threaded through the interpreter;
* the parallel fan-out (`threading.Thread` workers feeding a `queue.Queue`)
  is serialized branch-by-branch in edge order, which is one admissible
  interleaving of the real scheduler: within a branch the order is exact,
  and the drain loop is modelled on the resulting queue contents;
* wall-clock time is not embedded; `_is_timed_out` is modelled by a boolean
  oracle carried in the environment (`timed_out`), which covers both verdicts
  of the check without modelling real time;
* machine-level exceptions become explicit outcome values
  (`RunOutcome.failed` for `GraphRunFailedError`, `RunOutcome.exn` for any
  other exception).

Collaborator code that the repository snapshot does not include under `src/`
(the variable pool, `RouteNodeState`, the stream post-processors, the
condition handlers and the concrete node classes) is modelled from the
specification; each such definition carries a doc comment starting with
`Modelled from the spec:`.
-/

namespace GraphEngine

/-- Python values as they travel through node outputs and the variable pool
(`VariableValue` in the source): strings, integers and keyed dictionaries
are the shapes the claims exercise. -/
inductive PyValue where
  | str (s : String)
  | int (n : Int)
  | dict (entries : List (String × PyValue))

/-- Association-list lookup for string-keyed mappings (Python `dict.get`). -/
def alookup {α : Type} : List (String × α) → String → Option α
  | [], _ => none
  | (k, v) :: rest, key => if k = key then some v else alookup rest key

/-- Association-list update for string-keyed mappings (Python `dict[k] = v`):
overwrites in place when the key exists, appends otherwise, preserving
insertion order like a Python dict. -/
def aset {α : Type} : List (String × α) → String → α → List (String × α)
  | [], key, v => [(key, v)]
  | (k, w) :: rest, key, v =>
    if k = key then (key, v) :: rest else (k, w) :: aset rest key v

/-- The whitespace characters removed by Python `str.strip()` (ASCII part). -/
def isPyWhitespace (c : Char) : Bool :=
  c = ' ' || c = '\t' || c = '\n' || c = '\r' || c = '\x0b' || c = '\x0c'

/-- Python `str.strip()`: remove leading and trailing whitespace. -/
def pyStrip (s : String) : String :=
  ⟨((s.data.dropWhile isPyWhitespace).reverse.dropWhile isPyWhitespace).reverse⟩

/-- Modelled from the spec: the variable pool (`VariablePool`, whose code is
not part of the snapshot) is a mapping from key-paths to values; `Add`
overwrites the value at a path, and `Get` returns the latest value. -/
def Pool : Type := List String → Option PyValue

/-- Modelled from the spec: `VariablePool.Add(path, value)` — later inserts at
the same path overwrite earlier ones. -/
def Pool.add (p : Pool) (path : List String) (v : PyValue) : Pool :=
  fun q => if q = path then some v else p q

/-- Modelled from the spec: `VariablePool.Get(path)`. -/
def Pool.get (p : Pool) (path : List String) : Option PyValue := p path

/-- The empty variable pool. -/
def Pool.empty : Pool := fun _ => none

mutual

/-- `GraphEngine._append_variables_recursively`: insert `variable_value` at
`[node_id] ++ variable_key_list`; if the value is a dict, recursively insert
every child at the key list extended with the child's key. -/
def append_variables_recursively (pool : Pool) (node_id : String)
    (variable_key_list : List String) (variable_value : PyValue) : Pool :=
  let pool' := pool.add (node_id :: variable_key_list) variable_value
  match variable_value with
  | .dict entries => appendEntries pool' node_id variable_key_list entries
  | _ => pool'

/-- The `for key, value in variable_value.items()` loop of
`_append_variables_recursively`. -/
def appendEntries (pool : Pool) (node_id : String) (variable_key_list : List String) :
    List (String × PyValue) → Pool
  | [] => pool
  | (key, value) :: rest =>
    appendEntries
      (append_variables_recursively pool node_id (variable_key_list ++ [key]) value)
      node_id variable_key_list rest

end

/-- `NodeType` (the subset of tags the engine inspects: `END` and `ANSWER`
are special-cased in `run()`, every other type is handled uniformly; `other`
stands for any further registered node type).  The node-class registry
`node_classes` is total on these tags, so the
`Node ... type ... not found.` branch of `_run` is unreachable in the model. -/
inductive NodeType where
  | start
  | llm
  | answer
  | end_
  | other (tag : String)
  deriving DecidableEq, Repr

/-- `WorkflowNodeExecutionStatus` (from `models.workflow`, not part of the
snapshot): the statuses a node run result can carry.  `running` is the
non-terminal status. -/
inductive ExecStatus where
  | running
  | succeeded
  | failed
  deriving DecidableEq, Repr

/-- A node's `NodeRunResult` as consumed by `_run_node`: status, outputs,
error text and the `metadata[TOTAL_TOKENS]` entry.  The opaque `llm_usage`
accumulator is not modelled (no claim observes it). -/
structure NodeRunResult where
  status : ExecStatus
  outputs : List (String × PyValue)
  error : Option String
  metadata_total_tokens : Option Nat

/-- `RouteNodeState.Status` (from `runtime_route_state.py`, not part of the
snapshot). -/
inductive RouteStatus where
  | pending
  | running
  | succeeded
  | failed
  deriving DecidableEq, Repr

/-- `RouteNodeState`: the per-invocation record of a node's run.  The
wall-clock fields (`start_at`, `finished_at`) are not embedded. -/
structure RouteNodeState where
  id : Nat
  node_id : String
  status : RouteStatus
  index : Nat
  failed_reason : Option String
  node_run_result : Option NodeRunResult

/-- Modelled from the spec: `RouteNodeState.set_finished(run_result)` (code
in `runtime_route_state.py`, not part of the snapshot) records the run result
on the state and finalizes the status; for a failed result the failure reason
is taken from the result's error. -/
def RouteNodeState.set_finished (route : RouteNodeState) (run_result : NodeRunResult) :
    RouteNodeState :=
  { route with
    node_run_result := some run_result
    status :=
      match run_result.status with
      | .succeeded => .succeeded
      | .failed => .failed
      | .running => route.status
    failed_reason :=
      if run_result.status = .failed then run_result.error else route.failed_reason }

/-- The parallel tags (`parallel_id`, `parallel_start_node_id`) stamped on
events produced inside a parallel branch. -/
structure PTags where
  parallel_id : Option String
  parallel_start_node_id : Option String

/-- The engine's event family (`core.workflow.graph_engine.entities.event`).
Events carry the fields the engine itself reads or the claims observe;
`route_node_state` snapshots are taken at the point the Python code would
last have mutated the shared object before the event is seen downstream. -/
inductive Event where
  | graphRunStarted
  | graphRunSucceeded (outputs : List (String × PyValue))
  | graphRunFailed (error : String)
  | nodeRunStarted (node_id : String) (state_id : Nat) (index : Nat)
      (predecessor_node_id : Option String) (tags : PTags)
  | nodeRunStreamChunk (node_id : String) (chunk_content : String) (tags : PTags)
  | nodeRunRetrieverResource (node_id : String) (tags : PTags)
  | nodeRunSucceeded (node_id : String) (node_type : NodeType)
      (route_node_state : RouteNodeState) (tags : PTags)
  | nodeRunFailed (error : String) (node_id : String)
      (route_node_state : RouteNodeState) (tags : PTags)
  | parallelBranchRunStarted (parallel_id : String) (parallel_start_node_id : String)
  | parallelBranchRunSucceeded (parallel_id : String) (parallel_start_node_id : String)
  | parallelBranchRunFailed (parallel_id : String) (parallel_start_node_id : String)
      (error : String)
  | iterationEvent (tags : PTags)

/-- The items a node's lazy `run()` sequence can yield
(`core.workflow.nodes.event`): a terminal `RunCompletedEvent`, stream chunks,
retriever resources, or an engine-level iteration event passed through. -/
inductive NodeItem where
  | runCompleted (run_result : NodeRunResult)
  | runStreamChunk (chunk_content : String)
  | runRetrieverResource
  | iterationEvent

/-- How a node's lazy sequence ends after its items are exhausted: normal
completion, the `GenerateTaskStoppedException` cancellation signal, or any
other raised exception. -/
inductive NodeEnding where
  | normal
  | taskStopped
  | raiseExn (msg : String)

/-- Modelled from the spec: a concrete node (the node classes live outside
the engine) is abstracted by the item sequence its `run()` yields and the way
that sequence ends. -/
structure NodeBehavior where
  items : List NodeItem
  ending : NodeEnding

/-- A node's configuration entry in the graph: its `type` tag and the
behavior of the node instantiated from it. -/
structure NodeConfig where
  node_type : NodeType
  behavior : NodeBehavior

/-- An opaque `run_condition` value; its meaning is supplied by the condition
handler in the environment. -/
abbrev RunCondition : Type := String

/-- `Edge` of `graph.edge_mapping`: target node and optional run condition. -/
structure Edge where
  target_node_id : String
  run_condition : Option RunCondition

/-- A parallel-group descriptor (`graph.parallel_mapping` value): the node at
which the branches re-converge, if any. -/
structure Parallel where
  end_to_node_id : Option String

/-- The immutable `Graph` value. -/
structure Graph where
  root_node_id : String
  node_id_config_mapping : List (String × NodeConfig)
  edge_mapping : List (String × List Edge)
  node_parallel_mapping : List (String × String)
  parallel_mapping : List (String × Parallel)

/-- `GraphRuntimeState`: the mutable per-run state threaded through the
interpreter.  `llm_usage` and the wall-clock `start_at` are not embedded. -/
structure RuntimeState where
  pool : Pool
  node_run_steps : Nat
  outputs : List (String × PyValue)
  next_state_id : Nat
  node_state_mapping : List (Nat × RouteNodeState)
  routes : List (Nat × Nat)
  total_tokens : Nat

/-- The engine environment: the graph, the limits, the wall-clock oracle and
the external condition evaluator (`ConditionManager...check`, whose concrete
handlers live outside the engine; it receives the condition, the runtime
state, the previous route node state and the target node id). -/
structure Env where
  graph : Graph
  max_execution_steps : Nat
  max_execution_time : Nat
  timed_out : Bool
  condCheck : RunCondition → RuntimeState → RouteNodeState → String → Bool

/-- The fresh runtime state built in `GraphEngine.__init__`. -/
def initState (pool : Pool) : RuntimeState :=
  { pool := pool
    node_run_steps := 0
    outputs := []
    next_state_id := 0
    node_state_mapping := []
    routes := []
    total_tokens := 0 }

/-- How a call of the traversal ends, seen from its caller:
`ok` — the generator is exhausted normally;
`failed e` — `GraphRunFailedError(e)` was raised;
`exn e` — any other exception was raised;
`outOfFuel` — the fuel of the model interpreter ran out (no Python
counterpart; excluded by the fuel-sufficiency lemma). -/
inductive RunOutcome where
  | ok
  | failed (error : String)
  | exn (error : String)
  | outOfFuel
  deriving DecidableEq, Repr

/-- How `_run_node` itself returns to `_run`: normally, or by re-raising a
node exception (`except Exception as e: raise e`). -/
inductive NodeRunExit where
  | normal
  | exn (msg : String)
  deriving Repr

/-- Python's `x or default` for an optional string: `None` and the empty
string are falsy. -/
def pyOr (s : Option String) (default : String) : String :=
  match s with
  | some v => if v = "" then default else v
  | none => default

/-- The `for item in generator` loop of `GraphEngine._run_node` (lines
419-524): map node items to engine events, finalize the route state on
`RunCompleted` and stop consuming, convert the cancellation exception into a
`NodeRunFailed` with error `"Workflow stopped."` and a normal return, and
re-raise any other exception. -/
def consumeItems (node_id : String) (node_type : NodeType) (tags : PTags) :
    List NodeItem → NodeEnding → RouteNodeState → RuntimeState →
    List Event × RouteNodeState × RuntimeState × NodeRunExit
  | [], ending, route, st =>
    match ending with
    | .normal => ([], route, st, .normal)
    | .taskStopped =>
      let route' : RouteNodeState :=
        { route with status := .failed, failed_reason := some "Workflow stopped." }
      ([.nodeRunFailed "Workflow stopped." node_id route' tags], route', st, .normal)
    | .raiseExn msg => ([], route, st, .exn msg)
  | .iterationEvent :: rest, ending, route, st =>
    let (evs, route', st', ex) := consumeItems node_id node_type tags rest ending route st
    (.iterationEvent tags :: evs, route', st', ex)
  | .runStreamChunk chunk :: rest, ending, route, st =>
    let (evs, route', st', ex) := consumeItems node_id node_type tags rest ending route st
    (.nodeRunStreamChunk node_id chunk tags :: evs, route', st', ex)
  | .runRetrieverResource :: rest, ending, route, st =>
    let (evs, route', st', ex) := consumeItems node_id node_type tags rest ending route st
    (.nodeRunRetrieverResource node_id tags :: evs, route', st', ex)
  | .runCompleted run_result :: _rest, _ending, route, st =>
    -- `route_node_state.set_finished(run_result=run_result)`, then `break`:
    -- items after the RunCompleted are never consumed and the ending of the
    -- sequence is never reached.
    let route' := route.set_finished run_result
    if run_result.status = .failed then
      ([.nodeRunFailed (pyOr route'.failed_reason "Unknown error.") node_id route' tags],
        route', st, .normal)
    else if run_result.status = .succeeded then
      -- plus state total_tokens (truthiness: a zero or missing entry is skipped)
      let st :=
        match run_result.metadata_total_tokens with
        | some t => if t ≠ 0 then { st with total_tokens := st.total_tokens + t } else st
        | none => st
      -- append node output variables to the variable pool recursively
      let st :=
        { st with
          pool := run_result.outputs.foldl
            (fun pool kv => append_variables_recursively pool node_id [kv.1] kv.2)
            st.pool }
      -- (the parallel-info stamping of `run_result.metadata` is not modelled:
      -- no claim observes metadata)
      ([.nodeRunSucceeded node_id node_type route' tags], route', st, .normal)
    else
      ([], route', st, .normal)

/-- `GraphEngine._run_node`: emit `NodeRunStarted` first, then pump the
node's lazy sequence. -/
def run_node (node_id : String) (node_type : NodeType) (behavior : NodeBehavior)
    (route : RouteNodeState) (predecessor_node_id : Option String) (tags : PTags)
    (st : RuntimeState) : List Event × RouteNodeState × RuntimeState × NodeRunExit :=
  let (evs, route', st', ex) :=
    consumeItems node_id node_type tags behavior.items behavior.ending route st
  (.nodeRunStarted node_id route.id route.index predecessor_node_id tags :: evs,
    route', st', ex)

/-- The `for item in generator` loop of `GraphEngine._run` (lines 203-208):
each `NodeRunStartedEvent` flowing through increments
`graph_runtime_state.node_run_steps` and stamps the new counter value as the
event's `route_node_state.index`.  Returns the final counter and the
re-stamped events. -/
def flowEvents (steps : Nat) : List Event → Nat × List Event
  | [] => (steps, [])
  | .nodeRunStarted node_id state_id _index pred tags :: rest =>
    let (steps', rest') := flowEvents (steps + 1) rest
    (steps', .nodeRunStarted node_id state_id (steps + 1) pred tags :: rest')
  -- the remaining events of this node were created after the started event
  -- flowed, so in Python their shared `route_node_state` already carries the
  -- assigned index; the snapshots record that
  | .nodeRunSucceeded nid ntype route tags :: rest =>
    let (steps', rest') := flowEvents steps rest
    (steps', .nodeRunSucceeded nid ntype { route with index := steps } tags :: rest')
  | .nodeRunFailed err nid route tags :: rest =>
    let (steps', rest') := flowEvents steps rest
    (steps', .nodeRunFailed err nid { route with index := steps } tags :: rest')
  | e :: rest =>
    let (steps', rest') := flowEvents steps rest
    (steps', e :: rest')

/-- The conditional-branch selection of `GraphEngine._run` (lines 266-281):
walk the edges in list order, evaluate only those carrying a
`run_condition`, and pick the target of the first whose condition holds. -/
def selectConditionalBranch (check : RunCondition → String → Bool) :
    List Edge → Option String
  | [] => none
  | edge :: rest =>
    match edge.run_condition with
    | some cond =>
      if check cond edge.target_node_id then some edge.target_node_id
      else selectConditionalBranch check rest
    | none => selectConditionalBranch check rest

/-- The drain loop of `GraphEngine._run` (lines 315-336) over the serialized
queue contents: forward each event; count `ParallelBranchRunSucceeded` events
of this group (in Python the count reaching the thread count posts the `None`
sentinel, which in the serialized model coincides with the end of the list);
on a `ParallelBranchRunFailed` of this group, stop and raise
`GraphRunFailedError(event.error)` -- returned here as the second component.
The debug `print` for the hardcoded title `'LLM 4'` has no stream effect and
is not modelled. -/
def drainLoop (parallel_id : String) (succeeded_count : Nat) :
    List Event → List Event × Option String
  | [] => ([], none)
  | .parallelBranchRunFailed p s err :: rest =>
    if p = parallel_id then
      ([.parallelBranchRunFailed p s err], some err)
    else
      let (kept, raised) := drainLoop parallel_id succeeded_count rest
      (.parallelBranchRunFailed p s err :: kept, raised)
  | .parallelBranchRunSucceeded p s :: rest =>
    let succeeded_count' := if p = parallel_id then succeeded_count + 1 else succeeded_count
    let (kept, raised) := drainLoop parallel_id succeeded_count' rest
    (.parallelBranchRunSucceeded p s :: kept, raised)
  | e :: rest =>
    let (kept, raised) := drainLoop parallel_id succeeded_count rest
    (e :: kept, raised)

/-- The worker threads of the parallel fan-out, serialized in edge order
(each thread body is `GraphEngine._run_parallel_node`); the third component
flags fuel exhaustion of the model interpreter. -/
def runWorkers (worker : String → RuntimeState → List Event × RuntimeState × Bool) :
    List Edge → RuntimeState → List Event × RuntimeState × Bool
  | [], st => ([], st, false)
  | edge :: rest, st =>
    let (evs, st', oof) := worker edge.target_node_id st
    if oof then (evs, st', true)
    else
      let (evs₂, st₂, oof₂) := runWorkers worker rest st'
      (evs ++ evs₂, st₂, oof₂)

/-- `GraphEngine._run_parallel_node`: the body of one parallel worker thread,
over the branch traversal `runBranch`: frame the branch's events with
`ParallelBranchRunStarted` and `ParallelBranchRunSucceeded` /
`ParallelBranchRunFailed` (the latter both for a `GraphRunFailedError` with
its carried error and for any other exception with its text).  The
`db.session.remove()` in the `finally` block has no stream effect.  The
boolean flags fuel exhaustion of the model interpreter. -/
def mk_worker (parallel_id : String)
    (runBranch : String → RuntimeState → List Event × RuntimeState × RunOutcome)
    (t : String) (s : RuntimeState) : List Event × RuntimeState × Bool :=
  let w := runBranch t s
  match w.2.2 with
  | .ok =>
    (.parallelBranchRunStarted parallel_id t ::
      (w.1 ++ [.parallelBranchRunSucceeded parallel_id t]), w.2.1, false)
  | .failed e =>
    (.parallelBranchRunStarted parallel_id t ::
      (w.1 ++ [.parallelBranchRunFailed parallel_id t e]), w.2.1, false)
  | .exn e =>
    (.parallelBranchRunStarted parallel_id t ::
      (w.1 ++ [.parallelBranchRunFailed parallel_id t e]), w.2.1, false)
  | .outOfFuel =>
    (.parallelBranchRunStarted parallel_id t :: w.1, w.2.1, true)

/-- The limit checks at the top of each `_run` iteration (lines 154-163). -/
def limit_error (env : Env) (st : RuntimeState) : Option RunOutcome :=
  if st.node_run_steps > env.max_execution_steps then
    some (.failed ("Max steps " ++ toString env.max_execution_steps ++ " reached."))
  else if env.timed_out then
    some (.failed ("Max execution time " ++ toString env.max_execution_time ++ "s reached."))
  else none

/-- The parallel re-entry guard of `GraphEngine._run` (line 349): a
sub-traversal running inside a parallel group stops once the chosen next node
no longer belongs to that group. -/
def parallelBreak (env : Env) (in_parallel_id : Option String) (next_node_id : String) :
    Bool :=
  match in_parallel_id with
  | some p => ((alookup env.graph.node_parallel_mapping next_node_id).getD "") ≠ p
  | none => false

/-- `GraphEngine._run`, as a fueled interpreter.  Arguments after the fuel:
the current `next_node_id`, `in_parallel_id`, `parallel_start_node_id`,
`previous_route_node_state`, and the shared runtime state.  Returns the
events the generator yields, the final runtime state, and how the generator
ends. -/
def run_path (env : Env) :
    Nat → String → Option String → Option String → Option RouteNodeState →
    RuntimeState → List Event × RuntimeState × RunOutcome
  | 0, _, _, _, _, st =>
    match limit_error env st with
    | some out => ([], st, out)
    | none => ([], st, .outOfFuel)
  | fuel + 1, next_node_id, in_parallel_id, parallel_start_node_id, prev, st =>
    match limit_error env st with
    | some out => ([], st, out)
    | none =>
      -- init route node state (`create_node_state`; modelled from the spec:
      -- a fresh state with a unique id, in the running status)
      let route : RouteNodeState :=
        { id := st.next_state_id, node_id := next_node_id, status := .running,
          index := 0, failed_reason := none, node_run_result := none }
      let st := { st with next_state_id := st.next_state_id + 1 }
      match alookup env.graph.node_id_config_mapping next_node_id with
      | none => ([], st, .failed ("Node " ++ next_node_id ++ " config not found."))
      | some node_config =>
        let tags : PTags :=
          { parallel_id := in_parallel_id, parallel_start_node_id := parallel_start_node_id }
        let nodeRes :=
          run_node next_node_id node_config.node_type node_config.behavior route
            (prev.map (fun p => p.node_id)) tags st
        let node_evs₀ := nodeRes.1
        let route₁ := nodeRes.2.1
        let st₁ := nodeRes.2.2.1
        let node_exit := nodeRes.2.2.2
        let flowed := flowEvents st₁.node_run_steps node_evs₀
        let st₂ := { st₁ with node_run_steps := flowed.1 }
        let node_evs := flowed.2
        -- the started event aliases the shared route_node_state object in
        -- Python; the index stamped while it flowed is visible afterwards
        let route₂ := { route₁ with index := st₂.node_run_steps }
        match node_exit with
        | .exn msg =>
          let route₃ : RouteNodeState :=
            { route₂ with status := .failed, failed_reason := some msg }
          (node_evs ++ [.nodeRunFailed msg next_node_id route₃ tags], st₂, .exn msg)
        | .normal =>
          let st₃ :=
            { st₂ with node_state_mapping := (route₂.id, route₂) :: st₂.node_state_mapping }
          let st₄ :=
            { st₃ with
              routes :=
                match prev with
                | some p => (p.id, route₂.id) :: st₃.routes
                | none => st₃.routes }
          -- terminate the path when the node's configured type is End
          if node_config.node_type = .end_ then
            (node_evs, st₄, .ok)
          else
            match (alookup env.graph.edge_mapping next_node_id).getD [] with
            | [] => (node_evs, st₄, .ok)
            | [edge] =>
              let proceed : Bool :=
                match edge.run_condition with
                | some cond => env.condCheck cond st₄ route₂ edge.target_node_id
                | none => true
              if proceed then
                if parallelBreak env in_parallel_id edge.target_node_id then
                  (node_evs, st₄, .ok)
                else
                  let next := run_path env fuel edge.target_node_id in_parallel_id
                    parallel_start_node_id (some route₂) st₄
                  (node_evs ++ next.1, next.2.1, next.2.2)
              else (node_evs, st₄, .ok)
            | edge₁ :: edge₂ :: restEdges =>
              let edge_mappings := edge₁ :: edge₂ :: restEdges
              if edge_mappings.any (fun e => e.run_condition.isSome) then
                match selectConditionalBranch
                    (fun c t => env.condCheck c st₄ route₂ t) edge_mappings with
                | none => (node_evs, st₄, .ok)
                | some final_node_id =>
                  if parallelBreak env in_parallel_id final_node_id then
                    (node_evs, st₄, .ok)
                  else
                    let next := run_path env fuel final_node_id in_parallel_id
                      parallel_start_node_id (some route₂) st₄
                    (node_evs ++ next.1, next.2.1, next.2.2)
              else
                match alookup env.graph.node_parallel_mapping edge₁.target_node_id with
                | none =>
                  (node_evs, st₄,
                    .failed ("Node " ++ edge₁.target_node_id ++ " related parallel not found."))
                | some parallel_id =>
                  match alookup env.graph.parallel_mapping parallel_id with
                  | none =>
                    (node_evs, st₄, .failed ("Parallel " ++ parallel_id ++ " not found."))
                  | some parallel =>
                    let ran := runWorkers
                      (mk_worker parallel_id
                        (fun t => run_path env fuel t (some parallel_id) (some t) none))
                      edge_mappings st₄
                    let queue_evs := ran.1
                    let st₅ := ran.2.1
                    -- fuel exhaustion inside a worker has no Python
                    -- counterpart; the artificial result carries no events
                    if ran.2.2 then (node_evs, st₅, .outOfFuel)
                    else
                      let drained := drainLoop parallel_id 0 queue_evs
                      match drained.2 with
                      | some err => (node_evs ++ drained.1, st₅, .failed err)
                      | none =>
                        match parallel.end_to_node_id with
                        | none => (node_evs ++ drained.1, st₅, .ok)
                        | some final_node_id =>
                          if parallelBreak env in_parallel_id final_node_id then
                            (node_evs ++ drained.1, st₅, .ok)
                          else
                            let next := run_path env fuel final_node_id in_parallel_id
                              parallel_start_node_id (some route₂) st₅
                            (node_evs ++ drained.1 ++ next.1, next.2.1, next.2.2)

/-- Modelled from the spec: the stream post-processors
(`AnswerStreamProcessor` for chat, `EndStreamProcessor` otherwise, chosen by
`workflow_type`; their code is not part of the snapshot) only buffer or
suppress `NodeRunStreamChunk` events and pass every other event through
unchanged.  No claim under verification involves chunk events, so the
post-processor is embedded as the identity transducer. -/
def stream_process (events : List Event) : List Event := events

/-- The `NodeRunSucceeded` bookkeeping of `GraphEngine.run` (lines 115-130):
an `End` node replaces `graph_runtime_state.outputs` with the node's outputs
(or `{}` when absent/empty); an `Answer` node appends a newline plus the
node's `answer` output (empty string when the result or its outputs are
falsy or the key is missing) to `outputs["answer"]` and strips the result.
A non-string value makes the Python `+` raise a `TypeError`, returned as
`Except.error`; the caught exception's text is not observed by any claim. -/
def updateOutputsOnSucceeded (outputs : List (String × PyValue)) (node_type : NodeType)
    (route : RouteNodeState) : Except String (List (String × PyValue)) :=
  match node_type with
  | .end_ =>
    .ok
      (match route.node_run_result with
      | some r => if r.outputs.isEmpty then [] else r.outputs
      | none => [])
  | .answer =>
    let outputs₁ :=
      if (alookup outputs "answer").isSome then outputs
      else aset outputs "answer" (.str "")
    let addend : Except String String :=
      match route.node_run_result with
      | some r =>
        if r.outputs.isEmpty then .ok ""
        else
          match alookup r.outputs "answer" with
          | none => .ok ""
          | some (.str a) => .ok a
          | some _ => .error "TypeError"
      | none => .ok ""
    match alookup outputs₁ "answer", addend with
    | some (.str current), .ok a =>
      .ok (aset outputs₁ "answer" (.str (pyStrip (current ++ "\n" ++ a))))
    | some _, .error msg => .error msg
    | some _, .ok _ => .error "TypeError"
    | none, _ => .ok outputs₁
  | _ => .ok outputs

/-- The `for item in generator` loop of `GraphEngine.run` (lines 109-144)
together with its terminal framing: yield each post-processed event; after a
`NodeRunFailed` emit `GraphRunFailed` from the route state's failure reason
and stop; update `outputs` on `NodeRunSucceeded` (an exception there is
caught and becomes a terminal `GraphRunFailed`); when the inner generator is
exhausted, close with `GraphRunSucceeded(outputs)` for a normal end, or
`GraphRunFailed` for a `GraphRunFailedError` or any other exception (which
`run` re-raises after yielding, without further events). -/
def processLoop (outputs : List (String × PyValue)) (outcome : RunOutcome) :
    List Event → List Event
  | [] =>
    match outcome with
    | .ok => [.graphRunSucceeded outputs]
    | .failed e => [.graphRunFailed e]
    | .exn e => [.graphRunFailed e]
    | .outOfFuel => []
  | .nodeRunFailed err nid route tags :: _rest =>
    [.nodeRunFailed err nid route tags,
      .graphRunFailed (pyOr route.failed_reason "Unknown error.")]
  | .nodeRunSucceeded nid ntype route tags :: rest =>
    match updateOutputsOnSucceeded outputs ntype route with
    | .ok outputs' =>
      .nodeRunSucceeded nid ntype route tags :: processLoop outputs' outcome rest
    | .error msg =>
      [.nodeRunSucceeded nid ntype route tags, .graphRunFailed msg]
  | e :: rest => e :: processLoop outputs outcome rest

/-- `GraphEngine.run`: emit `GraphRunStarted`, pipe `_run(root_node_id)`
through the stream post-processor, and frame the result. -/
def run (env : Env) (fuel : Nat) (pool : Pool) : List Event :=
  let inner := run_path env fuel env.graph.root_node_id none none none (initState pool)
  .graphRunStarted :: processLoop [] inner.2.2 (stream_process inner.1)

/-! ### Observation functions on event streams -/

/-- Is the event one of the two terminal framing events
(`GraphRunSucceeded` / `GraphRunFailed`)? -/
def isGraphTerminal : Event → Bool
  | .graphRunSucceeded _ => true
  | .graphRunFailed _ => true
  | _ => false

/-- The `route_node_state.index` values carried by the `NodeRunStarted`
events of a stream, in stream order. -/
def startedIndices : List Event → List Nat
  | [] => []
  | .nodeRunStarted _ _ index _ _ :: rest => index :: startedIndices rest
  | _ :: rest => startedIndices rest

/-- The number of `NodeRunStarted` events in a stream. -/
def startedCount (evs : List Event) : Nat := (startedIndices evs).length

/-- Is the event a `ParallelBranchRunFailed` of the given group? -/
def isPBFailedFor (parallel_id : String) : Event → Bool
  | .parallelBranchRunFailed p _ _ => p = parallel_id
  | _ => false

/-- Is the node item a `RunCompleted` event? -/
def NodeItem.isRunCompleted : NodeItem → Bool
  | .runCompleted _ => true
  | _ => false

/-- Is the event a per-node terminal event
(`NodeRunSucceeded` / `NodeRunFailed`)? -/
def isNodeTerminal : Event → Bool
  | .nodeRunSucceeded .. => true
  | .nodeRunFailed .. => true
  | _ => false

/-- Is the event a `NodeRunFailed`? -/
def isNodeFailed : Event → Bool
  | .nodeRunFailed .. => true
  | _ => false

/-- A stream predicate on single events: not a terminal framing event and
not the `GraphRunStarted` framing event.  `_run` never yields framing
events; they are added only by `run`. -/
def isInnerEvent (e : Event) : Prop :=
  isGraphTerminal e = false ∧ e ≠ .graphRunStarted


/-- The properties each serialized parallel worker
(`_run_parallel_node` over one branch) provides to the fan-out analysis:
consecutive started indices from the entry step counter, step growth
bounded below by the started count, exactness when the branch posted no
`ParallelBranchRunFailed` of this group and did not run out of fuel,
preservation of the step bound, only inner events, and no fuel exhaustion
when the entry step counter leaves enough fuel. -/
def WorkerProp (M F : Nat) (pid : String)
    (worker : String → RuntimeState → List Event × RuntimeState × Bool) : Prop :=
  ∀ t s,
    startedIndices (worker t s).1
        = List.range' (s.node_run_steps + 1) (startedCount (worker t s).1)
    ∧ s.node_run_steps + startedCount (worker t s).1 ≤ (worker t s).2.1.node_run_steps
    ∧ ((∀ e ∈ (worker t s).1, isPBFailedFor pid e = false) → (worker t s).2.2 = false →
        (worker t s).2.1.node_run_steps = s.node_run_steps + startedCount (worker t s).1)
    ∧ (s.node_run_steps ≤ M + 1 → (worker t s).2.1.node_run_steps ≤ M + 1)
    ∧ (∀ e ∈ (worker t s).1, isInnerEvent e)
    ∧ (M + 2 ≤ s.node_run_steps + F → (worker t s).2.2 = false)


/-- The traversal invariant of `_run`: the started indices of the produced
events are consecutive from the entry step counter plus one; the step counter
grows at least by the number of started events (more only when a parallel
failure truncated forwarded events); on a normal end the growth is exact; the
counter never exceeds `max_execution_steps + 1` when it started below; enough
fuel rules out the artificial out-of-fuel end; and `_run` yields only inner
(non-framing) events. -/
def PathInv (env : Env) (fuel : Nat) (stIn : RuntimeState)
    (res : List Event × RuntimeState × RunOutcome) : Prop :=
  startedIndices res.1 = List.range' (stIn.node_run_steps + 1) (startedCount res.1)
  ∧ stIn.node_run_steps + startedCount res.1 ≤ res.2.1.node_run_steps
  ∧ (res.2.2 = .ok →
      res.2.1.node_run_steps = stIn.node_run_steps + startedCount res.1)
  ∧ (stIn.node_run_steps ≤ env.max_execution_steps + 1 →
      res.2.1.node_run_steps ≤ env.max_execution_steps + 1)
  ∧ (env.max_execution_steps + 2 ≤ stIn.node_run_steps + fuel →
      res.2.2 ≠ .outOfFuel)
  ∧ ∀ e ∈ res.1, isInnerEvent e


/-- The cumulative effect of the facade loop's output bookkeeping over a
stream prefix: threads `updateOutputsOnSucceeded` through the
`NodeRunSucceeded` events, stopping at the first raised exception. -/
def foldOutputs (outputs : List (String × PyValue)) :
    List Event → Except String (List (String × PyValue))
  | [] => .ok outputs
  | .nodeRunSucceeded _ node_type route _ :: rest =>
    match updateOutputsOnSucceeded outputs node_type route with
    | .ok outputs' => foldOutputs outputs' rest
    | .error msg => .error msg
  | _ :: rest => foldOutputs outputs rest

/-- The specification's description of conditional-branch selection, stated
independently of the loop in `_run`: among the edges carrying a
`run_condition`, in list order, the first whose condition evaluates true
wins; unconditional edges do not participate. -/
def specConditionalWinner (check : RunCondition → String → Bool)
    (edges : List Edge) : Option String :=
  ((edges.filter (fun e => e.run_condition.isSome)).find?
    (fun e =>
      match e.run_condition with
      | some cond => check cond e.target_node_id
      | none => false)).map
    (fun e => e.target_node_id)

/-- A readable projection of an event to its kind and identifying fields,
used to state concrete stream facts without spelling out route snapshots. -/
def eventName : Event → String
  | .graphRunStarted => "GraphRunStarted"
  | .graphRunSucceeded _ => "GraphRunSucceeded"
  | .graphRunFailed e => "GraphRunFailed " ++ e
  | .nodeRunStarted nid _ _ _ _ => "NodeRunStarted " ++ nid
  | .nodeRunStreamChunk nid _ _ => "NodeRunStreamChunk " ++ nid
  | .nodeRunRetrieverResource nid _ => "NodeRunRetrieverResource " ++ nid
  | .nodeRunSucceeded nid _ _ _ => "NodeRunSucceeded " ++ nid
  | .nodeRunFailed e nid _ _ => "NodeRunFailed " ++ nid ++ " " ++ e
  | .parallelBranchRunStarted p s => "ParallelBranchRunStarted " ++ p ++ " " ++ s
  | .parallelBranchRunSucceeded p s => "ParallelBranchRunSucceeded " ++ p ++ " " ++ s
  | .parallelBranchRunFailed p s e => "ParallelBranchRunFailed " ++ p ++ " " ++ s ++ " " ++ e
  | .iterationEvent _ => "IterationEvent"

/-! ### Concrete scenario graphs (the spec's seed scenarios) -/

/-- A node behavior that completes successfully with the given outputs. -/
def okNode (outputs : List (String × PyValue)) : NodeBehavior :=
  { items := [.runCompleted
      { status := .succeeded, outputs := outputs, error := none,
        metadata_total_tokens := none }]
    ending := .normal }

/-- An unconditional edge. -/
def plainEdge (target : String) : Edge :=
  { target_node_id := target, run_condition := none }

/-- An environment over a graph with a step limit, no timeout, and a
condition evaluator that accepts exactly the condition tag `"yes"`. -/
def mkEnv (g : Graph) (maxSteps : Nat) : Env :=
  { graph := g
    max_execution_steps := maxSteps
    max_execution_time := 600
    timed_out := false
    condCheck := fun cond _ _ _ => cond == "yes" }

/-- A one-node graph (for witnessing the framing claims). -/
def gC1 : Graph :=
  { root_node_id := "n"
    node_id_config_mapping := [("n", { node_type := .llm, behavior := okNode [] })]
    edge_mapping := []
    node_parallel_mapping := []
    parallel_mapping := [] }

/-- The environment of the one-node graph. -/
def envC1 : Env := mkEnv gC1 500

/-- Scenario S2 of the spec: a sequential chat graph in which two Answer
nodes succeed in order with answers `"foo"` and `"bar"`. -/
def gS2 : Graph :=
  { root_node_id := "start"
    node_id_config_mapping :=
      [("start", { node_type := .start, behavior := okNode [] }),
       ("ans1", { node_type := .answer, behavior := okNode [("answer", .str "foo")] }),
       ("ans2", { node_type := .answer, behavior := okNode [("answer", .str "bar")] })]
    edge_mapping :=
      [("start", [plainEdge "ans1"]), ("ans1", [plainEdge "ans2"])]
    node_parallel_mapping := []
    parallel_mapping := [] }

/-- The environment of scenario S2. -/
def envS2 : Env := mkEnv gS2 500

/-- Scenario S5 of the spec: five sequential nodes. -/
def gS5 : Graph :=
  { root_node_id := "n1"
    node_id_config_mapping :=
      [("n1", { node_type := .llm, behavior := okNode [] }),
       ("n2", { node_type := .llm, behavior := okNode [] }),
       ("n3", { node_type := .llm, behavior := okNode [] }),
       ("n4", { node_type := .llm, behavior := okNode [] }),
       ("n5", { node_type := .llm, behavior := okNode [] })]
    edge_mapping :=
      [("n1", [plainEdge "n2"]), ("n2", [plainEdge "n3"]),
       ("n3", [plainEdge "n4"]), ("n4", [plainEdge "n5"])]
    node_parallel_mapping := []
    parallel_mapping := [] }

/-- The environment of scenario S5 with `max_execution_steps = 2`. -/
def envC2 : Env := mkEnv gS5 2

/-- Scenario S6 of the spec: a parallel fan-out `{A, B}` in which branch B's
node raises an exception with text `"boom"`. -/
def gS6 : Graph :=
  { root_node_id := "src"
    node_id_config_mapping :=
      [("src", { node_type := .start, behavior := okNode [] }),
       ("A", { node_type := .llm, behavior := okNode [] }),
       ("B", { node_type := .llm, behavior := { items := [], ending := .raiseExn "boom" } })]
    edge_mapping := [("src", [plainEdge "A", plainEdge "B"])]
    node_parallel_mapping := [("A", "P"), ("B", "P")]
    parallel_mapping := [("P", { end_to_node_id := none })] }

/-- The environment of scenario S6. -/
def envS6 : Env := mkEnv gS6 500

/-- A conditional-branch graph: the source node has three outgoing edges, a
false-conditioned one, an unconditional one, and a true-conditioned one. -/
def gC6 : Graph :=
  { root_node_id := "a"
    node_id_config_mapping :=
      [("a", { node_type := .start, behavior := okNode [] }),
       ("n1", { node_type := .llm, behavior := okNode [] }),
       ("n2", { node_type := .llm, behavior := okNode [] }),
       ("n3", { node_type := .llm, behavior := okNode [] })]
    edge_mapping :=
      [("a", [{ target_node_id := "n1", run_condition := some "no" },
              plainEdge "n2",
              { target_node_id := "n3", run_condition := some "yes" }])]
    node_parallel_mapping := []
    parallel_mapping := [] }

/-- The environment of the conditional-branch graph. -/
def envC6 : Env := mkEnv gC6 500

/-! ### The index-stamping race of the parallel fan-out

`run_path` serializes the worker threads, which fixes one schedule of the
shared-counter accesses.  The following finer model embeds the stamping
section itself at the level of its shared-memory accesses, so that the
other schedules of the preemptive worker threads are expressible. -/

/-- The micro-operations a parallel worker performs on shared state while its
`NodeRunStarted` event flows through `_run` and is enqueued by
`_run_parallel_node`: the unsynchronized `node_run_steps += 1` of lines
205-206 is its constituent shared read (`readSteps`) and shared write-back
(`writeSteps`); the stamp `event.route_node_state.index = node_run_steps` is
a further shared read (`stampIndex`); and the worker's `q.put(event)` of
lines 373-374 publishes the stamped event (`putEvent`).  A worker thread can
be preempted between any two of these. -/
inductive StampOp where
  | readSteps
  | writeSteps
  | stampIndex
  | putEvent

/-- The state of two parallel workers racing through the stamping section:
the shared `node_run_steps`, each worker's local read of it, each worker's
stamped index, the queue contents (the stamped indices of the two started
events, in arrival order), and each worker's remaining micro-operations. -/
structure StampRace where
  steps : Nat
  localA : Nat
  localB : Nat
  idxA : Nat
  idxB : Nat
  queue : List Nat
  progA : List StampOp
  progB : List StampOp

/-- One micro-operation of worker A. -/
def stepA (s : StampRace) : StampRace :=
  match s.progA with
  | [] => s
  | .readSteps :: rest => { s with localA := s.steps, progA := rest }
  | .writeSteps :: rest => { s with steps := s.localA + 1, progA := rest }
  | .stampIndex :: rest => { s with idxA := s.steps, progA := rest }
  | .putEvent :: rest => { s with queue := s.queue ++ [s.idxA], progA := rest }

/-- One micro-operation of worker B. -/
def stepB (s : StampRace) : StampRace :=
  match s.progB with
  | [] => s
  | .readSteps :: rest => { s with localB := s.steps, progB := rest }
  | .writeSteps :: rest => { s with steps := s.localB + 1, progB := rest }
  | .stampIndex :: rest => { s with idxB := s.steps, progB := rest }
  | .putEvent :: rest => { s with queue := s.queue ++ [s.idxB], progB := rest }

/-- Run the two workers under a schedule chosen by the preemptive scheduler:
`true` steps worker A, `false` steps worker B. -/
def runSchedule : List Bool → StampRace → StampRace
  | [], s => s
  | c :: cs, s => runSchedule cs (if c then stepA s else stepB s)

/-- Both workers about to stamp their started events, the fan-out's source
node having already been counted (`node_run_steps = 1`). -/
def raceInit : StampRace :=
  { steps := 1
    localA := 0
    localB := 0
    idxA := 0
    idxB := 0
    queue := []
    progA := [.readSteps, .writeSteps, .stampIndex, .putEvent]
    progB := [.readSteps, .writeSteps, .stampIndex, .putEvent] }

/-! ### Stream lemmas -/

theorem startedIndices_append (a b : List Event) :
    startedIndices (a ++ b) = startedIndices a ++ startedIndices b := by
  induction a with
  | nil => rfl
  | cons e rest ih =>
    cases e <;> simp [startedIndices, ih]

theorem startedCount_append (a b : List Event) :
    startedCount (a ++ b) = startedCount a + startedCount b := by
  simp [startedCount, startedIndices_append]

/-- A left factor of a consecutive run of naturals is the consecutive run of
its own length. -/
theorem append_eq_range' :
    ∀ (a b : List Nat) (s n : Nat), a ++ b = List.range' s n →
      a = List.range' s a.length := by
  intro a
  induction a with
  | nil => intro b s n _; rfl
  | cons x rest ih =>
    intro b s n h
    cases n with
    | zero => simp at h
    | succ m =>
      rw [List.range'_succ] at h
      simp only [List.cons_append, List.cons.injEq] at h
      simp only [List.length_cons, List.range'_succ, List.cons.injEq]
      exact ⟨h.1, ih b (s + 1) m h.2⟩

theorem consumeItems_facts (node_id : String) (node_type : NodeType) (tags : PTags) :
    ∀ (items : List NodeItem) (ending : NodeEnding) (route : RouteNodeState)
      (st : RuntimeState),
      startedIndices (consumeItems node_id node_type tags items ending route st).1 = []
      ∧ (consumeItems node_id node_type tags items ending route st).2.2.1.node_run_steps
          = st.node_run_steps
      ∧ ∀ e ∈ (consumeItems node_id node_type tags items ending route st).1,
          isInnerEvent e := by
  intro items
  induction items with
  | nil =>
    intro ending route st
    cases ending <;>
      simp [consumeItems, startedIndices, isInnerEvent, isGraphTerminal]
  | cons item rest ih =>
    intro ending route st
    cases item with
    | runCompleted run_result =>
      by_cases hf : run_result.status = .failed
      · simp [consumeItems, hf, startedIndices, isInnerEvent, isGraphTerminal]
      · by_cases hs : run_result.status = .succeeded
        · rcases hmt : run_result.metadata_total_tokens with _ | t
          · simp [consumeItems, hf, hs, hmt, startedIndices, isInnerEvent, isGraphTerminal]
          · by_cases ht : t = 0
            · simp [consumeItems, hf, hs, hmt, ht, startedIndices, isInnerEvent,
                isGraphTerminal]
            · simp [consumeItems, hf, hs, hmt, ht, startedIndices, isInnerEvent,
                isGraphTerminal]
        · simp [consumeItems, hf, hs, startedIndices, isInnerEvent, isGraphTerminal]
    | runStreamChunk chunk =>
      have h := ih ending route st
      simp only [consumeItems, startedIndices]
      refine ⟨h.1, h.2.1, ?_⟩
      intro e he
      simp only [List.mem_cons] at he
      rcases he with rfl | he
      · simp [isInnerEvent, isGraphTerminal]
      · exact h.2.2 e he
    | runRetrieverResource =>
      have h := ih ending route st
      simp only [consumeItems, startedIndices]
      refine ⟨h.1, h.2.1, ?_⟩
      intro e he
      simp only [List.mem_cons] at he
      rcases he with rfl | he
      · simp [isInnerEvent, isGraphTerminal]
      · exact h.2.2 e he
    | iterationEvent =>
      have h := ih ending route st
      simp only [consumeItems, startedIndices]
      refine ⟨h.1, h.2.1, ?_⟩
      intro e he
      simp only [List.mem_cons] at he
      rcases he with rfl | he
      · simp [isInnerEvent, isGraphTerminal]
      · exact h.2.2 e he

theorem run_node_facts (node_id : String) (node_type : NodeType)
    (behavior : NodeBehavior) (route : RouteNodeState)
    (predecessor_node_id : Option String) (tags : PTags) (st : RuntimeState) :
    startedIndices
        (run_node node_id node_type behavior route predecessor_node_id tags st).1
      = route.index :: []
    ∧ (run_node node_id node_type behavior route predecessor_node_id tags st).2.2.1.node_run_steps
        = st.node_run_steps
    ∧ ∀ e ∈ (run_node node_id node_type behavior route predecessor_node_id tags st).1,
        isInnerEvent e := by
  have h := consumeItems_facts node_id node_type tags behavior.items behavior.ending route st
  simp only [run_node, startedIndices]
  refine ⟨by rw [h.1], h.2.1, ?_⟩
  intro e he
  simp only [List.mem_cons] at he
  rcases he with rfl | he
  · simp [isInnerEvent, isGraphTerminal]
  · exact h.2.2 e he

theorem flowEvents_facts : ∀ (evs : List Event) (steps : Nat),
    (flowEvents steps evs).1 = steps + startedCount evs
    ∧ startedIndices (flowEvents steps evs).2
        = List.range' (steps + 1) (startedCount evs)
    ∧ ((∀ e ∈ evs, isInnerEvent e) →
        ∀ e ∈ (flowEvents steps evs).2, isInnerEvent e) := by
  intro evs
  induction evs with
  | nil => intro steps; simp [flowEvents, startedCount, startedIndices]
  | cons e rest ih =>
    intro steps
    cases e with
    | nodeRunStarted nid sid idx pred tags =>
      have h := ih (steps + 1)
      simp only [flowEvents, startedIndices, startedCount, List.length_cons]
      refine ⟨by rw [h.1]; simp only [startedCount, startedIndices, List.length_cons]; omega,
        ?_, ?_⟩
      · rw [h.2.1]
        rw [List.range'_succ]
        simp [startedCount]
      · intro hin e' he'
        simp only [List.mem_cons] at he'
        rcases he' with rfl | he'
        · simp [isInnerEvent, isGraphTerminal]
        · exact h.2.2 (fun x hx => hin x (List.mem_cons_of_mem _ hx)) e' he'
    | nodeRunSucceeded nid ntype route tags =>
      have h := ih steps
      simp only [flowEvents, startedIndices, startedCount]
      refine ⟨h.1, h.2.1, ?_⟩
      intro hin e' he'
      simp only [List.mem_cons] at he'
      rcases he' with rfl | he'
      · simp [isInnerEvent, isGraphTerminal]
      · exact h.2.2 (fun x hx => hin x (List.mem_cons_of_mem _ hx)) e' he'
    | nodeRunFailed err nid route tags =>
      have h := ih steps
      simp only [flowEvents, startedIndices, startedCount]
      refine ⟨h.1, h.2.1, ?_⟩
      intro hin e' he'
      simp only [List.mem_cons] at he'
      rcases he' with rfl | he'
      · simp [isInnerEvent, isGraphTerminal]
      · exact h.2.2 (fun x hx => hin x (List.mem_cons_of_mem _ hx)) e' he'
    | graphRunStarted =>
      have h := ih steps
      simp only [flowEvents, startedIndices, startedCount]
      refine ⟨h.1, h.2.1, ?_⟩
      intro hin e' he'
      simp only [List.mem_cons] at he'
      rcases he' with rfl | he'
      · exact hin _ (List.mem_cons_self _ _)
      · exact h.2.2 (fun x hx => hin x (List.mem_cons_of_mem _ hx)) e' he'
    | graphRunSucceeded outs =>
      have h := ih steps
      simp only [flowEvents, startedIndices, startedCount]
      refine ⟨h.1, h.2.1, ?_⟩
      intro hin e' he'
      simp only [List.mem_cons] at he'
      rcases he' with rfl | he'
      · exact hin _ (List.mem_cons_self _ _)
      · exact h.2.2 (fun x hx => hin x (List.mem_cons_of_mem _ hx)) e' he'
    | graphRunFailed msg =>
      have h := ih steps
      simp only [flowEvents, startedIndices, startedCount]
      refine ⟨h.1, h.2.1, ?_⟩
      intro hin e' he'
      simp only [List.mem_cons] at he'
      rcases he' with rfl | he'
      · exact hin _ (List.mem_cons_self _ _)
      · exact h.2.2 (fun x hx => hin x (List.mem_cons_of_mem _ hx)) e' he'
    | nodeRunStreamChunk nid c tags =>
      have h := ih steps
      simp only [flowEvents, startedIndices, startedCount]
      refine ⟨h.1, h.2.1, ?_⟩
      intro hin e' he'
      simp only [List.mem_cons] at he'
      rcases he' with rfl | he'
      · simp [isInnerEvent, isGraphTerminal]
      · exact h.2.2 (fun x hx => hin x (List.mem_cons_of_mem _ hx)) e' he'
    | nodeRunRetrieverResource nid tags =>
      have h := ih steps
      simp only [flowEvents, startedIndices, startedCount]
      refine ⟨h.1, h.2.1, ?_⟩
      intro hin e' he'
      simp only [List.mem_cons] at he'
      rcases he' with rfl | he'
      · simp [isInnerEvent, isGraphTerminal]
      · exact h.2.2 (fun x hx => hin x (List.mem_cons_of_mem _ hx)) e' he'
    | parallelBranchRunStarted p s =>
      have h := ih steps
      simp only [flowEvents, startedIndices, startedCount]
      refine ⟨h.1, h.2.1, ?_⟩
      intro hin e' he'
      simp only [List.mem_cons] at he'
      rcases he' with rfl | he'
      · simp [isInnerEvent, isGraphTerminal]
      · exact h.2.2 (fun x hx => hin x (List.mem_cons_of_mem _ hx)) e' he'
    | parallelBranchRunSucceeded p s =>
      have h := ih steps
      simp only [flowEvents, startedIndices, startedCount]
      refine ⟨h.1, h.2.1, ?_⟩
      intro hin e' he'
      simp only [List.mem_cons] at he'
      rcases he' with rfl | he'
      · simp [isInnerEvent, isGraphTerminal]
      · exact h.2.2 (fun x hx => hin x (List.mem_cons_of_mem _ hx)) e' he'
    | parallelBranchRunFailed p s err =>
      have h := ih steps
      simp only [flowEvents, startedIndices, startedCount]
      refine ⟨h.1, h.2.1, ?_⟩
      intro hin e' he'
      simp only [List.mem_cons] at he'
      rcases he' with rfl | he'
      · simp [isInnerEvent, isGraphTerminal]
      · exact h.2.2 (fun x hx => hin x (List.mem_cons_of_mem _ hx)) e' he'
    | iterationEvent tags =>
      have h := ih steps
      simp only [flowEvents, startedIndices, startedCount]
      refine ⟨h.1, h.2.1, ?_⟩
      intro hin e' he'
      simp only [List.mem_cons] at he'
      rcases he' with rfl | he'
      · simp [isInnerEvent, isGraphTerminal]
      · exact h.2.2 (fun x hx => hin x (List.mem_cons_of_mem _ hx)) e' he'

theorem drainLoop_succ_irrel (pid : String) :
    ∀ (evs : List Event) (succ₁ succ₂ : Nat),
      drainLoop pid succ₁ evs = drainLoop pid succ₂ evs := by
  intro evs
  induction evs with
  | nil => intro _ _; rfl
  | cons e rest ih =>
    intro succ₁ succ₂
    cases e <;> simp only [drainLoop] <;> rw [ih _ succ₂]
    rw [ih _ (if _ = pid then succ₂ + 1 else succ₂)]

theorem drainLoop_prefix (pid : String) :
    ∀ (evs : List Event) (succ : Nat),
      ∃ rest, evs = (drainLoop pid succ evs).1 ++ rest := by
  intro evs
  induction evs with
  | nil => intro succ; exact ⟨[], rfl⟩
  | cons e rest ih =>
    intro succ
    cases e with
    | parallelBranchRunFailed p s err =>
      by_cases hp : p = pid
      · exact ⟨rest, by simp [drainLoop, hp]⟩
      · obtain ⟨r, hr⟩ := ih succ
        exact ⟨r, by simp only [drainLoop, hp, if_false]; exact congrArg _ hr⟩
    | parallelBranchRunSucceeded p s =>
      obtain ⟨r, hr⟩ := ih (if p = pid then succ + 1 else succ)
      exact ⟨r, by simp only [drainLoop]; exact congrArg _ hr⟩
    | graphRunStarted =>
      obtain ⟨r, hr⟩ := ih succ
      exact ⟨r, by simp only [drainLoop]; exact congrArg _ hr⟩
    | graphRunSucceeded outs =>
      obtain ⟨r, hr⟩ := ih succ
      exact ⟨r, by simp only [drainLoop]; exact congrArg _ hr⟩
    | graphRunFailed msg =>
      obtain ⟨r, hr⟩ := ih succ
      exact ⟨r, by simp only [drainLoop]; exact congrArg _ hr⟩
    | nodeRunStarted a b c d f =>
      obtain ⟨r, hr⟩ := ih succ
      exact ⟨r, by simp only [drainLoop]; exact congrArg _ hr⟩
    | nodeRunStreamChunk a b c =>
      obtain ⟨r, hr⟩ := ih succ
      exact ⟨r, by simp only [drainLoop]; exact congrArg _ hr⟩
    | nodeRunRetrieverResource a b =>
      obtain ⟨r, hr⟩ := ih succ
      exact ⟨r, by simp only [drainLoop]; exact congrArg _ hr⟩
    | nodeRunSucceeded a b c d =>
      obtain ⟨r, hr⟩ := ih succ
      exact ⟨r, by simp only [drainLoop]; exact congrArg _ hr⟩
    | nodeRunFailed a b c d =>
      obtain ⟨r, hr⟩ := ih succ
      exact ⟨r, by simp only [drainLoop]; exact congrArg _ hr⟩
    | parallelBranchRunStarted p s =>
      obtain ⟨r, hr⟩ := ih succ
      exact ⟨r, by simp only [drainLoop]; exact congrArg _ hr⟩
    | iterationEvent tags =>
      obtain ⟨r, hr⟩ := ih succ
      exact ⟨r, by simp only [drainLoop]; exact congrArg _ hr⟩

theorem drainLoop_none (pid : String) :
    ∀ (evs : List Event) (succ : Nat), (drainLoop pid succ evs).2 = none →
      (drainLoop pid succ evs).1 = evs
      ∧ ∀ e ∈ evs, isPBFailedFor pid e = false := by
  intro evs
  induction evs with
  | nil => intro succ _; exact ⟨rfl, by simp⟩
  | cons e rest ih =>
    intro succ h
    cases e with
    | parallelBranchRunFailed p s err =>
      by_cases hp : p = pid
      · simp [drainLoop, hp] at h
      · simp only [drainLoop, hp, if_false] at h ⊢
        obtain ⟨h₁, h₂⟩ := ih succ h
        refine ⟨by rw [h₁], ?_⟩
        intro x hx
        rcases List.mem_cons.1 hx with rfl | hx
        · simp [isPBFailedFor, hp]
        · exact h₂ x hx
    | parallelBranchRunSucceeded p s =>
      simp only [drainLoop] at h ⊢
      obtain ⟨h₁, h₂⟩ := ih (if p = pid then succ + 1 else succ) h
      refine ⟨by rw [h₁], ?_⟩
      intro x hx
      rcases List.mem_cons.1 hx with rfl | hx
      · simp [isPBFailedFor]
      · exact h₂ x hx
    | graphRunStarted =>
      simp only [drainLoop] at h ⊢
      obtain ⟨h₁, h₂⟩ := ih succ h
      refine ⟨by rw [h₁], ?_⟩
      intro x hx
      rcases List.mem_cons.1 hx with rfl | hx
      · simp [isPBFailedFor]
      · exact h₂ x hx
    | graphRunSucceeded outs =>
      simp only [drainLoop] at h ⊢
      obtain ⟨h₁, h₂⟩ := ih succ h
      refine ⟨by rw [h₁], ?_⟩
      intro x hx
      rcases List.mem_cons.1 hx with rfl | hx
      · simp [isPBFailedFor]
      · exact h₂ x hx
    | graphRunFailed msg =>
      simp only [drainLoop] at h ⊢
      obtain ⟨h₁, h₂⟩ := ih succ h
      refine ⟨by rw [h₁], ?_⟩
      intro x hx
      rcases List.mem_cons.1 hx with rfl | hx
      · simp [isPBFailedFor]
      · exact h₂ x hx
    | nodeRunStarted a b c d f =>
      simp only [drainLoop] at h ⊢
      obtain ⟨h₁, h₂⟩ := ih succ h
      refine ⟨by rw [h₁], ?_⟩
      intro x hx
      rcases List.mem_cons.1 hx with rfl | hx
      · simp [isPBFailedFor]
      · exact h₂ x hx
    | nodeRunStreamChunk a b c =>
      simp only [drainLoop] at h ⊢
      obtain ⟨h₁, h₂⟩ := ih succ h
      refine ⟨by rw [h₁], ?_⟩
      intro x hx
      rcases List.mem_cons.1 hx with rfl | hx
      · simp [isPBFailedFor]
      · exact h₂ x hx
    | nodeRunRetrieverResource a b =>
      simp only [drainLoop] at h ⊢
      obtain ⟨h₁, h₂⟩ := ih succ h
      refine ⟨by rw [h₁], ?_⟩
      intro x hx
      rcases List.mem_cons.1 hx with rfl | hx
      · simp [isPBFailedFor]
      · exact h₂ x hx
    | nodeRunSucceeded a b c d =>
      simp only [drainLoop] at h ⊢
      obtain ⟨h₁, h₂⟩ := ih succ h
      refine ⟨by rw [h₁], ?_⟩
      intro x hx
      rcases List.mem_cons.1 hx with rfl | hx
      · simp [isPBFailedFor]
      · exact h₂ x hx
    | nodeRunFailed a b c d =>
      simp only [drainLoop] at h ⊢
      obtain ⟨h₁, h₂⟩ := ih succ h
      refine ⟨by rw [h₁], ?_⟩
      intro x hx
      rcases List.mem_cons.1 hx with rfl | hx
      · simp [isPBFailedFor]
      · exact h₂ x hx
    | parallelBranchRunStarted p s =>
      simp only [drainLoop] at h ⊢
      obtain ⟨h₁, h₂⟩ := ih succ h
      refine ⟨by rw [h₁], ?_⟩
      intro x hx
      rcases List.mem_cons.1 hx with rfl | hx
      · simp [isPBFailedFor]
      · exact h₂ x hx
    | iterationEvent tags =>
      simp only [drainLoop] at h ⊢
      obtain ⟨h₁, h₂⟩ := ih succ h
      refine ⟨by rw [h₁], ?_⟩
      intro x hx
      rcases List.mem_cons.1 hx with rfl | hx
      · simp [isPBFailedFor]
      · exact h₂ x hx

theorem drainLoop_cons_other (pid : String) (succ : Nat) (e : Event) (rest : List Event)
    (h : ∀ p s err, e ≠ .parallelBranchRunFailed p s err)
    (h' : ∀ p s, e ≠ .parallelBranchRunSucceeded p s) :
    drainLoop pid succ (e :: rest)
      = (e :: (drainLoop pid succ rest).1, (drainLoop pid succ rest).2) := by
  cases e <;> first
    | exact absurd rfl (h _ _ _)
    | exact absurd rfl (h' _ _)
    | simp [drainLoop]

theorem drainLoop_append_clean (pid : String) :
    ∀ (a b : List Event) (succ : Nat), (∀ e ∈ a, isPBFailedFor pid e = false) →
      drainLoop pid succ (a ++ b)
        = (a ++ (drainLoop pid 0 b).1, (drainLoop pid 0 b).2) := by
  intro a
  induction a with
  | nil =>
    intro b succ _
    simp only [List.nil_append]
    exact drainLoop_succ_irrel pid b succ 0
  | cons e a' ih =>
    intro b succ hclean
    have hcl' : ∀ x ∈ a', isPBFailedFor pid x = false :=
      fun x hx => hclean x (List.mem_cons_of_mem _ hx)
    cases e with
    | parallelBranchRunFailed p s err =>
      have hp : (p = pid) = False := by
        have := hclean _ (List.mem_cons_self _ _)
        simp [isPBFailedFor] at this
        simp [this]
      simp only [List.cons_append, drainLoop, hp, if_false, List.append_eq]
      rw [ih b succ hcl']
    | parallelBranchRunSucceeded p s =>
      simp only [List.cons_append, drainLoop, List.append_eq]
      rw [ih b (if p = pid then succ + 1 else succ) hcl']
    | graphRunStarted =>
      rw [List.cons_append, drainLoop_cons_other pid succ _ _ (by intro _ _ _ h; cases h)
        (by intro _ _ h; cases h), ih b succ hcl']
      rfl
    | graphRunSucceeded outs =>
      rw [List.cons_append, drainLoop_cons_other pid succ _ _ (by intro _ _ _ h; cases h)
        (by intro _ _ h; cases h), ih b succ hcl']
      rfl
    | graphRunFailed msg =>
      rw [List.cons_append, drainLoop_cons_other pid succ _ _ (by intro _ _ _ h; cases h)
        (by intro _ _ h; cases h), ih b succ hcl']
      rfl
    | nodeRunStarted x1 x2 x3 x4 x5 =>
      rw [List.cons_append, drainLoop_cons_other pid succ _ _ (by intro _ _ _ h; cases h)
        (by intro _ _ h; cases h), ih b succ hcl']
      rfl
    | nodeRunStreamChunk x1 x2 x3 =>
      rw [List.cons_append, drainLoop_cons_other pid succ _ _ (by intro _ _ _ h; cases h)
        (by intro _ _ h; cases h), ih b succ hcl']
      rfl
    | nodeRunRetrieverResource x1 x2 =>
      rw [List.cons_append, drainLoop_cons_other pid succ _ _ (by intro _ _ _ h; cases h)
        (by intro _ _ h; cases h), ih b succ hcl']
      rfl
    | nodeRunSucceeded x1 x2 x3 x4 =>
      rw [List.cons_append, drainLoop_cons_other pid succ _ _ (by intro _ _ _ h; cases h)
        (by intro _ _ h; cases h), ih b succ hcl']
      rfl
    | nodeRunFailed x1 x2 x3 x4 =>
      rw [List.cons_append, drainLoop_cons_other pid succ _ _ (by intro _ _ _ h; cases h)
        (by intro _ _ h; cases h), ih b succ hcl']
      rfl
    | parallelBranchRunStarted p s =>
      rw [List.cons_append, drainLoop_cons_other pid succ _ _ (by intro _ _ _ h; cases h)
        (by intro _ _ h; cases h), ih b succ hcl']
      rfl
    | iterationEvent tags =>
      rw [List.cons_append, drainLoop_cons_other pid succ _ _ (by intro _ _ _ h; cases h)
        (by intro _ _ h; cases h), ih b succ hcl']
      rfl

theorem drainLoop_append_stop (pid : String) :
    ∀ (a b : List Event) (succ : Nat) (err : String),
      (drainLoop pid succ a).2 = some err →
      drainLoop pid succ (a ++ b) = drainLoop pid succ a := by
  intro a
  induction a with
  | nil => intro b succ err h; simp [drainLoop] at h
  | cons e a' ih =>
    intro b succ err h
    cases e with
    | parallelBranchRunFailed p s e' =>
      by_cases hp : p = pid
      · simp [List.cons_append, drainLoop, hp]
      · simp only [drainLoop, hp, if_false] at h
        simp only [List.cons_append, drainLoop, hp, if_false, List.append_eq]
        rw [ih b succ err h]
    | parallelBranchRunSucceeded p s =>
      simp only [drainLoop] at h
      simp only [List.cons_append, drainLoop, List.append_eq]
      rw [ih b (if p = pid then succ + 1 else succ) err h]
    | graphRunStarted =>
      rw [drainLoop_cons_other pid succ _ _ (by intro _ _ _ hh; cases hh)
        (by intro _ _ hh; cases hh)] at h
      rw [List.cons_append,
        drainLoop_cons_other pid succ _ _ (by intro _ _ _ hh; cases hh)
          (by intro _ _ hh; cases hh),
        drainLoop_cons_other pid succ _ _ (by intro _ _ _ hh; cases hh)
          (by intro _ _ hh; cases hh),
        ih b succ err h]
    | graphRunSucceeded outs =>
      rw [drainLoop_cons_other pid succ _ _ (by intro _ _ _ hh; cases hh)
        (by intro _ _ hh; cases hh)] at h
      rw [List.cons_append,
        drainLoop_cons_other pid succ _ _ (by intro _ _ _ hh; cases hh)
          (by intro _ _ hh; cases hh),
        drainLoop_cons_other pid succ _ _ (by intro _ _ _ hh; cases hh)
          (by intro _ _ hh; cases hh),
        ih b succ err h]
    | graphRunFailed msg =>
      rw [drainLoop_cons_other pid succ _ _ (by intro _ _ _ hh; cases hh)
        (by intro _ _ hh; cases hh)] at h
      rw [List.cons_append,
        drainLoop_cons_other pid succ _ _ (by intro _ _ _ hh; cases hh)
          (by intro _ _ hh; cases hh),
        drainLoop_cons_other pid succ _ _ (by intro _ _ _ hh; cases hh)
          (by intro _ _ hh; cases hh),
        ih b succ err h]
    | nodeRunStarted x1 x2 x3 x4 x5 =>
      rw [drainLoop_cons_other pid succ _ _ (by intro _ _ _ hh; cases hh)
        (by intro _ _ hh; cases hh)] at h
      rw [List.cons_append,
        drainLoop_cons_other pid succ _ _ (by intro _ _ _ hh; cases hh)
          (by intro _ _ hh; cases hh),
        drainLoop_cons_other pid succ _ _ (by intro _ _ _ hh; cases hh)
          (by intro _ _ hh; cases hh),
        ih b succ err h]
    | nodeRunStreamChunk x1 x2 x3 =>
      rw [drainLoop_cons_other pid succ _ _ (by intro _ _ _ hh; cases hh)
        (by intro _ _ hh; cases hh)] at h
      rw [List.cons_append,
        drainLoop_cons_other pid succ _ _ (by intro _ _ _ hh; cases hh)
          (by intro _ _ hh; cases hh),
        drainLoop_cons_other pid succ _ _ (by intro _ _ _ hh; cases hh)
          (by intro _ _ hh; cases hh),
        ih b succ err h]
    | nodeRunRetrieverResource x1 x2 =>
      rw [drainLoop_cons_other pid succ _ _ (by intro _ _ _ hh; cases hh)
        (by intro _ _ hh; cases hh)] at h
      rw [List.cons_append,
        drainLoop_cons_other pid succ _ _ (by intro _ _ _ hh; cases hh)
          (by intro _ _ hh; cases hh),
        drainLoop_cons_other pid succ _ _ (by intro _ _ _ hh; cases hh)
          (by intro _ _ hh; cases hh),
        ih b succ err h]
    | nodeRunSucceeded x1 x2 x3 x4 =>
      rw [drainLoop_cons_other pid succ _ _ (by intro _ _ _ hh; cases hh)
        (by intro _ _ hh; cases hh)] at h
      rw [List.cons_append,
        drainLoop_cons_other pid succ _ _ (by intro _ _ _ hh; cases hh)
          (by intro _ _ hh; cases hh),
        drainLoop_cons_other pid succ _ _ (by intro _ _ _ hh; cases hh)
          (by intro _ _ hh; cases hh),
        ih b succ err h]
    | nodeRunFailed x1 x2 x3 x4 =>
      rw [drainLoop_cons_other pid succ _ _ (by intro _ _ _ hh; cases hh)
        (by intro _ _ hh; cases hh)] at h
      rw [List.cons_append,
        drainLoop_cons_other pid succ _ _ (by intro _ _ _ hh; cases hh)
          (by intro _ _ hh; cases hh),
        drainLoop_cons_other pid succ _ _ (by intro _ _ _ hh; cases hh)
          (by intro _ _ hh; cases hh),
        ih b succ err h]
    | parallelBranchRunStarted p s =>
      rw [drainLoop_cons_other pid succ _ _ (by intro _ _ _ hh; cases hh)
        (by intro _ _ hh; cases hh)] at h
      rw [List.cons_append,
        drainLoop_cons_other pid succ _ _ (by intro _ _ _ hh; cases hh)
          (by intro _ _ hh; cases hh),
        drainLoop_cons_other pid succ _ _ (by intro _ _ _ hh; cases hh)
          (by intro _ _ hh; cases hh),
        ih b succ err h]
    | iterationEvent tags =>
      rw [drainLoop_cons_other pid succ _ _ (by intro _ _ _ hh; cases hh)
        (by intro _ _ hh; cases hh)] at h
      rw [List.cons_append,
        drainLoop_cons_other pid succ _ _ (by intro _ _ _ hh; cases hh)
          (by intro _ _ hh; cases hh),
        drainLoop_cons_other pid succ _ _ (by intro _ _ _ hh; cases hh)
          (by intro _ _ hh; cases hh),
        ih b succ err h]

theorem startedIndices_prefix_range (kept r : List Event) (b : Nat)
    (h : startedIndices (kept ++ r) = List.range' b (startedCount (kept ++ r))) :
    startedIndices kept = List.range' b (startedCount kept) := by
  rw [startedIndices_append] at h
  exact append_eq_range' _ _ _ _ h

theorem startedCount_prefix_le (kept r : List Event) :
    startedCount kept ≤ startedCount (kept ++ r) := by
  rw [startedCount_append]
  omega

theorem runWorkers_facts (M F : Nat) (pid : String)
    (worker : String → RuntimeState → List Event × RuntimeState × Bool)
    (hw : WorkerProp M F pid worker) :
    ∀ (edges : List Edge) (st : RuntimeState),
      startedIndices (drainLoop pid 0 (runWorkers worker edges st).1).1
          = List.range' (st.node_run_steps + 1)
              (startedCount (drainLoop pid 0 (runWorkers worker edges st).1).1)
      ∧ st.node_run_steps
            + startedCount (drainLoop pid 0 (runWorkers worker edges st).1).1
          ≤ (runWorkers worker edges st).2.1.node_run_steps
      ∧ ((drainLoop pid 0 (runWorkers worker edges st).1).2 = none →
          (runWorkers worker edges st).2.2 = false →
          (runWorkers worker edges st).2.1.node_run_steps
              = st.node_run_steps
                + startedCount (drainLoop pid 0 (runWorkers worker edges st).1).1
            ∧ (drainLoop pid 0 (runWorkers worker edges st).1).1
              = (runWorkers worker edges st).1)
      ∧ (st.node_run_steps ≤ M + 1 →
          (runWorkers worker edges st).2.1.node_run_steps ≤ M + 1)
      ∧ (∀ e ∈ (drainLoop pid 0 (runWorkers worker edges st).1).1, isInnerEvent e)
      ∧ (M + 2 ≤ st.node_run_steps + F → (runWorkers worker edges st).2.2 = false) := by
  intro edges
  induction edges with
  | nil =>
    intro st
    simp [runWorkers, drainLoop, startedIndices, startedCount]
  | cons edge rest ih =>
    intro st
    obtain ⟨hw1, hw2, hw3, hw4, hw5, hw6⟩ := hw edge.target_node_id st
    rcases hoof : (worker edge.target_node_id st).2.2 with _ | _
    · -- the worker completes within fuel; the fold continues with the rest
      have hq : runWorkers worker (edge :: rest) st
          = ((worker edge.target_node_id st).1
              ++ (runWorkers worker rest (worker edge.target_node_id st).2.1).1,
             (runWorkers worker rest (worker edge.target_node_id st).2.1).2.1,
             (runWorkers worker rest (worker edge.target_node_id st).2.1).2.2) := by
        simp only [runWorkers, hoof]
        rfl
      have IH := ih (worker edge.target_node_id st).2.1
      by_cases hclean : ∀ e ∈ (worker edge.target_node_id st).1, isPBFailedFor pid e = false
      · -- clean worker: the drain passes its events through and continues
        have hexact := hw3 hclean hoof
        have hdapp := drainLoop_append_clean pid (worker edge.target_node_id st).1
          (runWorkers worker rest (worker edge.target_node_id st).2.1).1 0 hclean
        rw [hq]
        simp only [hdapp]
        refine ⟨?_, ?_, ?_, ?_, ?_, ?_⟩
        · rw [startedIndices_append, startedCount_append, hw1, IH.1, hexact]
          have harr : st.node_run_steps + startedCount (worker edge.target_node_id st).1 + 1
              = (st.node_run_steps + 1) + startedCount (worker edge.target_node_id st).1 := by
            omega
          rw [Nat.add_comm (startedCount (worker edge.target_node_id st).1)
            (startedCount (drainLoop pid 0
              (runWorkers worker rest (worker edge.target_node_id st).2.1).1).1), harr]
          exact List.range'_append_1 _ _ _
        · rw [startedCount_append]
          have := IH.2.1
          omega
        · intro hdr hoof₂
          obtain ⟨he, hk⟩ := IH.2.2.1 hdr hoof₂
          constructor
          · rw [startedCount_append]
            omega
          · rw [hk]
        · intro hb
          exact IH.2.2.2.1 (hw4 hb)
        · intro e he
          rcases List.mem_append.1 he with he | he
          · exact hw5 e he
          · exact IH.2.2.2.2.1 e he
        · intro hf
          refine IH.2.2.2.2.2 ?_
          omega
      · -- dirty worker: the drain stops inside this worker's events
        push_neg at hclean
        have hstop : ∃ err, (drainLoop pid 0 (worker edge.target_node_id st).1).2
            = some err := by
          rcases hd : (drainLoop pid 0 (worker edge.target_node_id st).1).2 with _ | err
          · obtain ⟨e, he, hpe⟩ := hclean
            have := (drainLoop_none pid _ 0 hd).2 e he
            simp [this] at hpe
          · exact ⟨err, rfl⟩
        obtain ⟨err, herr⟩ := hstop
        have hdapp := drainLoop_append_stop pid (worker edge.target_node_id st).1
          (runWorkers worker rest (worker edge.target_node_id st).2.1).1 0 err herr
        rw [hq]
        simp only [hdapp]
        obtain ⟨r, hr⟩ := drainLoop_prefix pid (worker edge.target_node_id st).1 0
        have hkc : startedCount (drainLoop pid 0 (worker edge.target_node_id st).1).1
            ≤ startedCount (worker edge.target_node_id st).1 := by
          conv_rhs => rw [hr]
          exact startedCount_prefix_le _ _
        refine ⟨?_, ?_, ?_, ?_, ?_, ?_⟩
        · apply startedIndices_prefix_range _ r
          rw [← hr, hw1]
        · have hmono : (worker edge.target_node_id st).2.1.node_run_steps
              ≤ (runWorkers worker rest (worker edge.target_node_id st).2.1).2.1.node_run_steps := by
            have := (ih (worker edge.target_node_id st).2.1).2.1
            omega
          omega
        · intro hdr
          rw [herr] at hdr
          cases hdr
        · intro hb
          exact (ih (worker edge.target_node_id st).2.1).2.2.2.1 (hw4 hb)
        · intro e he
          have : e ∈ (worker edge.target_node_id st).1 := by
            rw [hr]
            exact List.mem_append_left _ he
          exact hw5 e this
        · intro hf
          refine (ih (worker edge.target_node_id st).2.1).2.2.2.2.2 ?_
          omega
    · -- the worker ran out of fuel: the fold stops with the flag set
      have hq : runWorkers worker (edge :: rest) st
          = ((worker edge.target_node_id st).1, (worker edge.target_node_id st).2.1,
              true) := by
        simp only [runWorkers, hoof]
        rfl
      rw [hq]
      dsimp only
      obtain ⟨r, hr⟩ := drainLoop_prefix pid (worker edge.target_node_id st).1 0
      have hkc : startedCount (drainLoop pid 0 (worker edge.target_node_id st).1).1
          ≤ startedCount (worker edge.target_node_id st).1 := by
        conv_rhs => rw [hr]
        exact startedCount_prefix_le _ _
      refine ⟨?_, ?_, ?_, ?_, ?_, ?_⟩
      · apply startedIndices_prefix_range _ r
        rw [← hr, hw1]
      · omega
      · intro _ hfalse
        cases hfalse
      · intro hb
        exact hw4 hb
      · intro e he
        have : e ∈ (worker edge.target_node_id st).1 := by
          rw [hr]
          exact List.mem_append_left _ he
        exact hw5 e this
      · intro hf
        have := hw6 hf
        rw [hoof] at this
        cases this

theorem limit_error_none_le (env : Env) (st : RuntimeState)
    (h : limit_error env st = none) :
    st.node_run_steps ≤ env.max_execution_steps := by
  by_cases hs : st.node_run_steps > env.max_execution_steps
  · simp [limit_error, hs] at h
  · omega

theorem limit_error_some_failed (env : Env) (st : RuntimeState) (out : RunOutcome)
    (h : limit_error env st = some out) : ∃ e, out = .failed e := by
  by_cases hs : st.node_run_steps > env.max_execution_steps
  · simp only [limit_error, hs, if_true, Option.some.injEq] at h
    exact ⟨_, h.symm⟩
  · by_cases ht : env.timed_out
    · simp only [limit_error, hs, if_false, ht, if_true, Option.some.injEq] at h
      exact ⟨_, h.symm⟩
    · simp [limit_error, hs, ht] at h

/-- Gluing two event blocks whose started indices are consecutive runs,
the second starting where the first left off. -/
theorem range'_glue (a b : List Event) (s : Nat)
    (ha : startedIndices a = List.range' (s + 1) (startedCount a))
    (hb : startedIndices b = List.range' (s + startedCount a + 1) (startedCount b)) :
    startedIndices (a ++ b) = List.range' (s + 1) (startedCount (a ++ b)) := by
  rw [startedIndices_append, startedCount_append, ha, hb]
  have h : s + startedCount a + 1 = (s + 1) + startedCount a := by omega
  rw [h, Nat.add_comm (startedCount a) (startedCount b)]
  exact List.range'_append_1 _ _ _

theorem flowed_facts (node_id : String) (node_type : NodeType)
    (behavior : NodeBehavior) (route : RouteNodeState)
    (predecessor_node_id : Option String) (tags : PTags) (st : RuntimeState) :
    (flowEvents
        (run_node node_id node_type behavior route predecessor_node_id tags st).2.2.1.node_run_steps
        (run_node node_id node_type behavior route predecessor_node_id tags st).1).1
      = st.node_run_steps + 1
    ∧ startedIndices
        (flowEvents
          (run_node node_id node_type behavior route predecessor_node_id tags st).2.2.1.node_run_steps
          (run_node node_id node_type behavior route predecessor_node_id tags st).1).2
      = [st.node_run_steps + 1]
    ∧ startedCount
        (flowEvents
          (run_node node_id node_type behavior route predecessor_node_id tags st).2.2.1.node_run_steps
          (run_node node_id node_type behavior route predecessor_node_id tags st).1).2
      = 1
    ∧ ∀ e ∈ (flowEvents
          (run_node node_id node_type behavior route predecessor_node_id tags st).2.2.1.node_run_steps
          (run_node node_id node_type behavior route predecessor_node_id tags st).1).2,
        isInnerEvent e := by
  obtain ⟨hr1, hr2, hr3⟩ :=
    run_node_facts node_id node_type behavior route predecessor_node_id tags st
  obtain ⟨hf1, hf2, hf3⟩ :=
    flowEvents_facts
      (run_node node_id node_type behavior route predecessor_node_id tags st).1
      (run_node node_id node_type behavior route predecessor_node_id tags st).2.2.1.node_run_steps
  have hc : startedCount
      (run_node node_id node_type behavior route predecessor_node_id tags st).1 = 1 := by
    simp [startedCount, hr1]
  refine ⟨?_, ?_, ?_, fun e he => hf3 hr3 e he⟩
  · rw [hf1, hc, hr2]
  · rw [hf2, hc, hr2, List.range'_one]
  · rw [startedCount, hf2, hc, List.length_range']

theorem mk_worker_prop (M F : Nat) (pid : String)
    (runBranch : String → RuntimeState → List Event × RuntimeState × RunOutcome)
    (h : ∀ t s,
      startedIndices (runBranch t s).1
          = List.range' (s.node_run_steps + 1) (startedCount (runBranch t s).1)
      ∧ s.node_run_steps + startedCount (runBranch t s).1
          ≤ (runBranch t s).2.1.node_run_steps
      ∧ ((runBranch t s).2.2 = .ok →
          (runBranch t s).2.1.node_run_steps
            = s.node_run_steps + startedCount (runBranch t s).1)
      ∧ (s.node_run_steps ≤ M + 1 → (runBranch t s).2.1.node_run_steps ≤ M + 1)
      ∧ (M + 2 ≤ s.node_run_steps + F → (runBranch t s).2.2 ≠ .outOfFuel)
      ∧ ∀ e ∈ (runBranch t s).1, isInnerEvent e) :
    WorkerProp M F pid (mk_worker pid runBranch) := by
  intro t s
  obtain ⟨h1, h2, h3, h4, h5, h6⟩ := h t s
  rcases hout : (runBranch t s).2.2 with _ | e | e | _
  all_goals
    simp only [mk_worker, hout]
  · -- branch finished ok: frame with ParallelBranchRunSucceeded
    have hsi : startedIndices (Event.parallelBranchRunStarted pid t ::
        ((runBranch t s).1 ++ [Event.parallelBranchRunSucceeded pid t]))
        = startedIndices (runBranch t s).1 := by
      simp [startedIndices, startedIndices_append]
    have hsc : startedCount (Event.parallelBranchRunStarted pid t ::
        ((runBranch t s).1 ++ [Event.parallelBranchRunSucceeded pid t]))
        = startedCount (runBranch t s).1 := by
      simp [startedCount, hsi]
    refine ⟨by rw [hsi, hsc, h1], by rw [hsc]; exact h2, ?_, h4, ?_, ?_⟩
    · intro _ _
      rw [hsc]
      exact h3 hout
    · intro e he
      simp only [List.mem_cons, List.mem_append, List.mem_singleton, List.not_mem_nil,
        or_false] at he
      rcases he with rfl | he | rfl
      · simp [isInnerEvent, isGraphTerminal]
      · exact h6 e he
      · simp [isInnerEvent, isGraphTerminal]
    · intro _; trivial
  · -- branch raised GraphRunFailedError: frame with ParallelBranchRunFailed
    have hsi : startedIndices (Event.parallelBranchRunStarted pid t ::
        ((runBranch t s).1 ++ [Event.parallelBranchRunFailed pid t e]))
        = startedIndices (runBranch t s).1 := by
      simp [startedIndices, startedIndices_append]
    have hsc : startedCount (Event.parallelBranchRunStarted pid t ::
        ((runBranch t s).1 ++ [Event.parallelBranchRunFailed pid t e]))
        = startedCount (runBranch t s).1 := by
      simp [startedCount, hsi]
    refine ⟨by rw [hsi, hsc, h1], by rw [hsc]; exact h2, ?_, h4, ?_, ?_⟩
    · intro hclean _
      have : isPBFailedFor pid (Event.parallelBranchRunFailed pid t e) = false := by
        refine hclean _ ?_
        simp
      simp [isPBFailedFor] at this
    · intro x hx
      simp only [List.mem_cons, List.mem_append, List.mem_singleton, List.not_mem_nil,
        or_false] at hx
      rcases hx with rfl | hx | rfl
      · simp [isInnerEvent, isGraphTerminal]
      · exact h6 x hx
      · simp [isInnerEvent, isGraphTerminal]
    · intro _; trivial
  · -- branch raised any other exception: same framing
    have hsi : startedIndices (Event.parallelBranchRunStarted pid t ::
        ((runBranch t s).1 ++ [Event.parallelBranchRunFailed pid t e]))
        = startedIndices (runBranch t s).1 := by
      simp [startedIndices, startedIndices_append]
    have hsc : startedCount (Event.parallelBranchRunStarted pid t ::
        ((runBranch t s).1 ++ [Event.parallelBranchRunFailed pid t e]))
        = startedCount (runBranch t s).1 := by
      simp [startedCount, hsi]
    refine ⟨by rw [hsi, hsc, h1], by rw [hsc]; exact h2, ?_, h4, ?_, ?_⟩
    · intro hclean _
      have : isPBFailedFor pid (Event.parallelBranchRunFailed pid t e) = false := by
        refine hclean _ ?_
        simp
      simp [isPBFailedFor] at this
    · intro x hx
      simp only [List.mem_cons, List.mem_append, List.mem_singleton, List.not_mem_nil,
        or_false] at hx
      rcases hx with rfl | hx | rfl
      · simp [isInnerEvent, isGraphTerminal]
      · exact h6 x hx
      · simp [isInnerEvent, isGraphTerminal]
    · intro _; trivial
  · -- the model interpreter ran out of fuel inside the branch
    have hsi : startedIndices (Event.parallelBranchRunStarted pid t :: (runBranch t s).1)
        = startedIndices (runBranch t s).1 := by
      simp [startedIndices]
    have hsc : startedCount (Event.parallelBranchRunStarted pid t :: (runBranch t s).1)
        = startedCount (runBranch t s).1 := by
      simp [startedCount, hsi]
    refine ⟨by rw [hsi, hsc, h1], by rw [hsc]; exact h2, ?_, h4, ?_, ?_⟩
    · intro _ hfalse
      cases hfalse
    · intro x hx
      rcases List.mem_cons.1 hx with rfl | hx
      · simp [isInnerEvent, isGraphTerminal]
      · exact h6 x hx
    · intro hf
      exact absurd hout (h5 hf)

/-- A traversal result that ends the loop normally (`break` → outcome `ok`)
satisfies the invariant when its step growth is exact. -/
theorem path_inv_ok (env : Env) (fuel : Nat) (st : RuntimeState)
    (evs : List Event) (st' : RuntimeState)
    (h1 : startedIndices evs = List.range' (st.node_run_steps + 1) (startedCount evs))
    (h3 : st'.node_run_steps = st.node_run_steps + startedCount evs)
    (hb : st.node_run_steps ≤ env.max_execution_steps + 1 →
      st'.node_run_steps ≤ env.max_execution_steps + 1)
    (h5 : ∀ e ∈ evs, isInnerEvent e) :
    PathInv env fuel st (evs, st', .ok) := by
  unfold PathInv
  dsimp only
  refine ⟨h1, by omega, fun _ => h3, hb, ?_, h5⟩
  intro _ h
  cases h

/-- A traversal result that ends by raising (`failed` or `exn`) satisfies the
invariant when its step growth dominates the started count. -/
theorem path_inv_stop (env : Env) (fuel : Nat) (st : RuntimeState)
    (evs : List Event) (st' : RuntimeState) (out : RunOutcome)
    (h1 : startedIndices evs = List.range' (st.node_run_steps + 1) (startedCount evs))
    (h2 : st.node_run_steps + startedCount evs ≤ st'.node_run_steps)
    (hok : out ≠ .ok) (hoof : out ≠ .outOfFuel)
    (hb : st.node_run_steps ≤ env.max_execution_steps + 1 →
      st'.node_run_steps ≤ env.max_execution_steps + 1)
    (h5 : ∀ e ∈ evs, isInnerEvent e) :
    PathInv env fuel st (evs, st', out) := by
  unfold PathInv
  dsimp only
  exact ⟨h1, h2, fun h => absurd h hok, hb, fun _ => hoof, h5⟩

/-- Sequencing one loop iteration's events with the invariant of the
recursive continuation. -/
theorem path_inv_seq (env : Env) (fuel : Nat) (st stMid : RuntimeState)
    (evs : List Event) (res : List Event × RuntimeState × RunOutcome)
    (h1 : startedIndices evs = List.range' (st.node_run_steps + 1) (startedCount evs))
    (hpos : 1 ≤ startedCount evs)
    (hmid : stMid.node_run_steps = st.node_run_steps + startedCount evs)
    (hb : st.node_run_steps ≤ env.max_execution_steps + 1 →
      stMid.node_run_steps ≤ env.max_execution_steps + 1)
    (hinv : PathInv env fuel stMid res)
    (h5 : ∀ e ∈ evs, isInnerEvent e) :
    PathInv env (fuel + 1) st (evs ++ res.1, res.2.1, res.2.2) := by
  obtain ⟨i1, i2, i3, i4, i5, i6⟩ := hinv
  unfold PathInv
  dsimp only
  refine ⟨?_, ?_, ?_, ?_, ?_, ?_⟩
  · refine range'_glue evs res.1 st.node_run_steps h1 ?_
    rw [i1, hmid]
  · rw [startedCount_append]
    omega
  · intro hok
    have := i3 hok
    rw [startedCount_append]
    omega
  · intro hbound
    exact i4 (hb hbound)
  · intro hfuel
    refine i5 ?_
    omega
  · intro e he
    rcases List.mem_append.1 he with he | he
    · exact h5 e he
    · exact i6 e he

/-- The invariant for the parallel fan-out arm of `_run`: workers run
serialized from `st₄`, the queue is drained, and the traversal either fails
with the drained error, stops at a missing join node, or continues at the
join.  `node_evs` are the events of the fan-out source node already yielded
in this iteration. -/
theorem path_inv_parallel (env : Env) (fuel : Nat) (st st₄ : RuntimeState)
    (node_evs : List Event) (parallel_id : String) (parallel : Parallel)
    (edges : List Edge) (inPar parStart : Option String)
    (prev' : Option RouteNodeState)
    (hsi : startedIndices node_evs = [st.node_run_steps + 1])
    (hsc : startedCount node_evs = 1)
    (hst4 : st₄.node_run_steps = st.node_run_steps + 1)
    (hsle : st.node_run_steps ≤ env.max_execution_steps)
    (hinner : ∀ e ∈ node_evs, isInnerEvent e)
    (ih : ∀ (next : String) (inPar' parStart' : Option String)
      (prev : Option RouteNodeState) (s : RuntimeState),
      PathInv env fuel s (run_path env fuel next inPar' parStart' prev s)) :
    PathInv env (fuel + 1) st
      (let ran := runWorkers
        (mk_worker parallel_id
          (fun t => run_path env fuel t (some parallel_id) (some t) none))
        edges st₄
      if ran.2.2 then (node_evs, ran.2.1, .outOfFuel)
      else
        let drained := drainLoop parallel_id 0 ran.1
        match drained.2 with
        | some err => (node_evs ++ drained.1, ran.2.1, .failed err)
        | none =>
          match parallel.end_to_node_id with
          | none => (node_evs ++ drained.1, ran.2.1, .ok)
          | some final_node_id =>
            if parallelBreak env inPar final_node_id then
              (node_evs ++ drained.1, ran.2.1, .ok)
            else
              let nxt := run_path env fuel final_node_id inPar parStart prev' ran.2.1
              (node_evs ++ drained.1 ++ nxt.1, nxt.2.1, nxt.2.2)) := by
  have hW := runWorkers_facts env.max_execution_steps fuel parallel_id
    (mk_worker parallel_id
      (fun t => run_path env fuel t (some parallel_id) (some t) none))
    (mk_worker_prop env.max_execution_steps fuel parallel_id _
      (fun t s => ih t (some parallel_id) (some t) none s)) edges st₄
  obtain ⟨hW1, hW2, hW3, hW4, hW5, hW6⟩ := hW
  have hglue : startedIndices (node_evs ++ (drainLoop parallel_id 0
      (runWorkers (mk_worker parallel_id
        (fun t => run_path env fuel t (some parallel_id) (some t) none))
        edges st₄).1).1)
      = List.range' (st.node_run_steps + 1) (startedCount (node_evs ++ (drainLoop parallel_id 0
          (runWorkers (mk_worker parallel_id
            (fun t => run_path env fuel t (some parallel_id) (some t) none))
            edges st₄).1).1)) := by
    refine range'_glue _ _ _ ?_ ?_
    · rw [hsi, hsc, List.range'_one]
    · rw [hW1, hst4, hsc]
  have hcnt : startedCount (node_evs ++ (drainLoop parallel_id 0
      (runWorkers (mk_worker parallel_id
        (fun t => run_path env fuel t (some parallel_id) (some t) none))
        edges st₄).1).1)
      = 1 + startedCount (drainLoop parallel_id 0
          (runWorkers (mk_worker parallel_id
            (fun t => run_path env fuel t (some parallel_id) (some t) none))
            edges st₄).1).1 := by
    rw [startedCount_append, hsc]
  have hmem : ∀ e ∈ node_evs ++ (drainLoop parallel_id 0
      (runWorkers (mk_worker parallel_id
        (fun t => run_path env fuel t (some parallel_id) (some t) none))
        edges st₄).1).1, isInnerEvent e := by
    intro e he
    rcases List.mem_append.1 he with he | he
    · exact hinner e he
    · exact hW5 e he
  dsimp only
  rcases hoof : (runWorkers (mk_worker parallel_id
      (fun t => run_path env fuel t (some parallel_id) (some t) none))
      edges st₄).2.2 with _ | _
  · -- the workers all ran within fuel
    rw [if_neg Bool.false_ne_true]
    rcases hdr : (drainLoop parallel_id 0 (runWorkers (mk_worker parallel_id
        (fun t => run_path env fuel t (some parallel_id) (some t) none))
        edges st₄).1).2 with _ | err
    · -- no branch failure observed by the drain
      obtain ⟨hex, _⟩ := hW3 hdr hoof
      rcases hpe : parallel.end_to_node_id with _ | final_node_id
      · dsimp only
        refine path_inv_ok env _ st _ _ hglue ?_ ?_ hmem
        · rw [hcnt]
          omega
        · intro _
          exact hW4 (by omega)
      · dsimp only
        rcases hpb : parallelBreak env inPar final_node_id with _ | _
        · rw [if_neg Bool.false_ne_true]
          refine path_inv_seq env fuel st _ _ _ hglue ?_ ?_ ?_
            (ih final_node_id inPar parStart prev' _) hmem
          · rw [hcnt]
            omega
          · rw [hcnt]
            omega
          · intro _
            exact hW4 (by omega)
        · rw [if_pos rfl]
          refine path_inv_ok env _ st _ _ hglue ?_ ?_ hmem
          · rw [hcnt]
            omega
          · intro _
            exact hW4 (by omega)
    · -- a ParallelBranchRunFailed of this group: GraphRunFailedError(err)
      dsimp only
      refine path_inv_stop env _ st _ _ _ hglue ?_ ?_ ?_ ?_ hmem
      · rw [hcnt]
        omega
      · intro h
        cases h
      · intro h
        cases h
      · intro _
        exact hW4 (by omega)
  · -- fuel ran out inside a worker (model artifact)
    rw [if_pos rfl]
    refine ⟨?_, ?_, ?_, ?_, ?_, ?_⟩
    · rw [hsi, hsc, List.range'_one]
    · dsimp only
      rw [hsc]
      omega
    · intro h
      cases h
    · intro _
      exact hW4 (by omega)
    · intro hfuel
      have hff := hW6 (by omega)
      rw [hoof] at hff
      cases hff
    · exact hinner

/-- The main traversal invariant: every call of `_run` satisfies `PathInv`. -/
theorem run_path_inv (env : Env) :
    ∀ (fuel : Nat) (next : String) (inPar parStart : Option String)
      (prev : Option RouteNodeState) (st : RuntimeState),
      PathInv env fuel st (run_path env fuel next inPar parStart prev st) := by
  intro fuel
  induction fuel with
  | zero =>
    intro next inPar parStart prev st
    rcases hle : limit_error env st with _ | out
    · simp only [run_path, hle]
      refine ⟨by simp [startedIndices, startedCount], by simp [startedCount, startedIndices],
        ?_, fun h => h, ?_, by simp⟩
      · intro h
        cases h
      · intro hfuel
        have := limit_error_none_le env st hle
        omega
    · simp only [run_path, hle]
      obtain ⟨e, rfl⟩ := limit_error_some_failed env st out hle
      refine ⟨by simp [startedIndices, startedCount], by simp [startedCount, startedIndices],
        ?_, fun h => h, ?_, by simp⟩
      · intro h
        cases h
      · intro _ h
        cases h
  | succ fuel ih =>
    intro next inPar parStart prev st
    rcases hle : limit_error env st with _ | out
    case succ.some =>
      simp only [run_path, hle]
      obtain ⟨e, rfl⟩ := limit_error_some_failed env st out hle
      refine ⟨by simp [startedIndices, startedCount], by simp [startedCount, startedIndices],
        ?_, fun h => h, ?_, by simp⟩
      · intro h
        cases h
      · intro _ h
        cases h
    case succ.none =>
    simp only [run_path, hle]
    have hsle := limit_error_none_le env st hle
    rcases hcfg : alookup env.graph.node_id_config_mapping next with _ | node_config
    · -- node config not found: GraphRunFailedError
      simp only [hcfg]
      refine path_inv_stop env _ st _ _ _ (by simp [startedIndices, startedCount])
        (by simp [startedCount, startedIndices]) ?_ ?_ (fun h => h) (by simp)
      · intro h
        cases h
      · intro h
        cases h
    · simp only [hcfg]
      obtain ⟨hf1, hf2, hf3, hf4⟩ :=
        flowed_facts next node_config.node_type node_config.behavior
          ⟨st.next_state_id, next, .running, 0, none, none⟩
          (prev.map (fun p => p.node_id)) ⟨inPar, parStart⟩
          { st with next_state_id := st.next_state_id + 1 }
      dsimp only at hf1 hf2 hf3 hf4
      split
      case _ msg heq =>
        -- the node re-raised: NodeRunFailed is yielded and the exception
        -- propagates
        refine path_inv_stop env _ st _ _ _ ?_ ?_ ?_ ?_
          (fun _ => le_of_eq_of_le hf1 (by omega)) ?_
        · rw [startedIndices_append, startedCount_append, hf2, hf3]
          simp [startedIndices, startedCount, List.range'_one]
        · rw [startedCount_append, hf3]
          refine le_trans (le_of_eq ?_) (ge_of_eq hf1)
          simp [startedCount, startedIndices]
        · intro h
          cases h
        · intro h
          cases h
        · intro e he
          rcases List.mem_append.1 he with he | he
          · exact hf4 e he
          · rcases List.mem_singleton.1 he with rfl
            simp [isInnerEvent, isGraphTerminal]
      case _ heq =>
        split
        · -- the current node is an End node: terminate the path
          refine path_inv_ok env _ st _ _ ?_ ?_ ?_ hf4
          · rw [hf2, hf3, List.range'_one]
          · rw [hf3]
            exact hf1
          · intro _
            exact le_of_eq_of_le hf1 (by omega)
        · -- advance along the edges
          split
          · -- no outgoing edges: terminate the path
            refine path_inv_ok env _ st _ _ ?_ ?_ ?_ hf4
            · rw [hf2, hf3, List.range'_one]
            · rw [hf3]
              exact hf1
            · intro _
              exact le_of_eq_of_le hf1 (by omega)
          · -- a single outgoing edge
            split
            · -- its condition (if any) holds
              split
              · -- leaving the current parallel group: terminate this traversal
                refine path_inv_ok env _ st _ _ ?_ ?_ ?_ hf4
                · rw [hf2, hf3, List.range'_one]
                · rw [hf3]
                  exact hf1
                · intro _
                  exact le_of_eq_of_le hf1 (by omega)
              · -- loop with the edge's target
                refine path_inv_seq env fuel st _ _ _ ?_ ?_ ?_ ?_ (ih _ _ _ _ _) hf4
                · rw [hf2, hf3, List.range'_one]
                · exact le_of_eq hf3.symm
                · rw [hf3]
                  exact hf1
                · intro _
                  exact le_of_eq_of_le hf1 (by omega)
            · -- condition false: terminate the path
              refine path_inv_ok env _ st _ _ ?_ ?_ ?_ hf4
              · rw [hf2, hf3, List.range'_one]
              · rw [hf3]
                exact hf1
              · intro _
                exact le_of_eq_of_le hf1 (by omega)
          · -- several outgoing edges
            split
            · -- at least one edge carries a run condition: conditional branch
              split
              · -- no condition matched: terminate the path
                refine path_inv_ok env _ st _ _ ?_ ?_ ?_ hf4
                · rw [hf2, hf3, List.range'_one]
                · rw [hf3]
                  exact hf1
                · intro _
                  exact le_of_eq_of_le hf1 (by omega)
              · -- first matching conditioned edge wins
                split
                · -- leaving the current parallel group: terminate
                  refine path_inv_ok env _ st _ _ ?_ ?_ ?_ hf4
                  · rw [hf2, hf3, List.range'_one]
                  · rw [hf3]
                    exact hf1
                  · intro _
                    exact le_of_eq_of_le hf1 (by omega)
                · -- loop with the selected target
                  refine path_inv_seq env fuel st _ _ _ ?_ ?_ ?_ ?_ (ih _ _ _ _ _) hf4
                  · rw [hf2, hf3, List.range'_one]
                  · exact le_of_eq hf3.symm
                  · rw [hf3]
                    exact hf1
                  · intro _
                    exact le_of_eq_of_le hf1 (by omega)
            · -- no conditions: parallel fan-out
              split
              · -- parallel group of the first target not found
                refine path_inv_stop env _ st _ _ _ ?_ ?_ ?_ ?_ ?_ hf4
                · rw [hf2, hf3, List.range'_one]
                · rw [hf3]
                  exact ge_of_eq hf1
                · intro h
                  cases h
                · intro h
                  cases h
                · intro _
                  exact le_of_eq_of_le hf1 (by omega)
              · -- parallel descriptor lookup
                split
                · -- descriptor not found
                  refine path_inv_stop env _ st _ _ _ ?_ ?_ ?_ ?_ ?_ hf4
                  · rw [hf2, hf3, List.range'_one]
                  · rw [hf3]
                    exact ge_of_eq hf1
                  · intro h
                    cases h
                  · intro h
                    cases h
                  · intro _
                    exact le_of_eq_of_le hf1 (by omega)
                · -- run the workers and drain the queue
                  refine path_inv_parallel env fuel st _ _ _ _ _ inPar parStart _
                    hf2 hf3 hf1 hsle hf4 ih

/-! ### Facade-loop lemmas -/

theorem processLoop_cons_other (outs : List (String × PyValue)) (outcome : RunOutcome)
    (e : Event) (rest : List Event)
    (h1 : ∀ a b c d, e ≠ .nodeRunFailed a b c d)
    (h2 : ∀ a b c d, e ≠ .nodeRunSucceeded a b c d) :
    processLoop outs outcome (e :: rest) = e :: processLoop outs outcome rest := by
  cases e <;> first
    | exact absurd rfl (h1 _ _ _ _)
    | exact absurd rfl (h2 _ _ _ _)
    | simp [processLoop]

theorem foldOutputs_cons_other (outs : List (String × PyValue))
    (e : Event) (rest : List Event)
    (h2 : ∀ a b c d, e ≠ .nodeRunSucceeded a b c d) :
    foldOutputs outs (e :: rest) = foldOutputs outs rest := by
  cases e <;> first
    | exact absurd rfl (h2 _ _ _ _)
    | simp [foldOutputs]

theorem processLoop_terminal :
    ∀ (evs : List Event) (outs : List (String × PyValue)) (outcome : RunOutcome),
      outcome ≠ .outOfFuel →
      (∀ e ∈ evs, isInnerEvent e) →
      ∃ mid last, processLoop outs outcome evs = mid ++ [last]
        ∧ isGraphTerminal last = true
        ∧ ∀ e ∈ mid, isInnerEvent e := by
  intro evs
  induction evs with
  | nil =>
    intro outs outcome hoof _
    cases outcome with
    | ok =>
      exact ⟨[], .graphRunSucceeded outs, rfl, rfl, by simp⟩
    | failed e => exact ⟨[], .graphRunFailed e, rfl, rfl, by simp⟩
    | exn e => exact ⟨[], .graphRunFailed e, rfl, rfl, by simp⟩
    | outOfFuel => exact absurd rfl hoof
  | cons e rest ih =>
    intro outs outcome hoof hin
    have hin' : ∀ x ∈ rest, isInnerEvent x := fun x hx => hin x (List.mem_cons_of_mem _ hx)
    cases e with
    | nodeRunFailed a b c d =>
      refine ⟨[.nodeRunFailed a b c d],
        .graphRunFailed (pyOr c.failed_reason "Unknown error."), rfl, rfl, ?_⟩
      intro x hx
      rcases List.mem_singleton.1 hx with rfl
      exact hin _ (List.mem_cons_self _ _)
    | nodeRunSucceeded a b c d =>
      rcases hupd : updateOutputsOnSucceeded outs b c with outs' | msg
      · -- Except.error: the facade loop catches and fails the run
        refine ⟨[.nodeRunSucceeded a b c d], .graphRunFailed outs', ?_, rfl, ?_⟩
        · simp [processLoop, hupd]
        · intro x hx
          rcases List.mem_singleton.1 hx with rfl
          exact hin _ (List.mem_cons_self _ _)
      · obtain ⟨mid, last, hm, hl, hmm⟩ := ih msg outcome hoof hin'
        refine ⟨.nodeRunSucceeded a b c d :: mid, last, ?_, hl, ?_⟩
        · simp [processLoop, hupd, hm]
        · intro x hx
          rcases List.mem_cons.1 hx with rfl | hx
          · exact hin _ (List.mem_cons_self _ _)
          · exact hmm x hx
    | graphRunStarted =>
      obtain ⟨mid, last, hm, hl, hmm⟩ := ih outs outcome hoof hin'
      refine ⟨Event.graphRunStarted :: mid, last, ?_, hl, ?_⟩
      · rw [processLoop_cons_other outs outcome _ _ (by intro _ _ _ _ h; cases h)
          (by intro _ _ _ _ h; cases h), hm]
        rfl
      · intro x hx
        rcases List.mem_cons.1 hx with rfl | hx
        · exact hin _ (List.mem_cons_self _ _)
        · exact hmm x hx
    | graphRunSucceeded o =>
      obtain ⟨mid, last, hm, hl, hmm⟩ := ih outs outcome hoof hin'
      refine ⟨Event.graphRunSucceeded o :: mid, last, ?_, hl, ?_⟩
      · rw [processLoop_cons_other outs outcome _ _ (by intro _ _ _ _ h; cases h)
          (by intro _ _ _ _ h; cases h), hm]
        rfl
      · intro x hx
        rcases List.mem_cons.1 hx with rfl | hx
        · exact hin _ (List.mem_cons_self _ _)
        · exact hmm x hx
    | graphRunFailed m =>
      obtain ⟨mid, last, hm, hl, hmm⟩ := ih outs outcome hoof hin'
      refine ⟨Event.graphRunFailed m :: mid, last, ?_, hl, ?_⟩
      · rw [processLoop_cons_other outs outcome _ _ (by intro _ _ _ _ h; cases h)
          (by intro _ _ _ _ h; cases h), hm]
        rfl
      · intro x hx
        rcases List.mem_cons.1 hx with rfl | hx
        · exact hin _ (List.mem_cons_self _ _)
        · exact hmm x hx
    | nodeRunStarted a b c d f =>
      obtain ⟨mid, last, hm, hl, hmm⟩ := ih outs outcome hoof hin'
      refine ⟨Event.nodeRunStarted a b c d f :: mid, last, ?_, hl, ?_⟩
      · rw [processLoop_cons_other outs outcome _ _ (by intro _ _ _ _ h; cases h)
          (by intro _ _ _ _ h; cases h), hm]
        rfl
      · intro x hx
        rcases List.mem_cons.1 hx with rfl | hx
        · exact hin _ (List.mem_cons_self _ _)
        · exact hmm x hx
    | nodeRunStreamChunk a b c =>
      obtain ⟨mid, last, hm, hl, hmm⟩ := ih outs outcome hoof hin'
      refine ⟨Event.nodeRunStreamChunk a b c :: mid, last, ?_, hl, ?_⟩
      · rw [processLoop_cons_other outs outcome _ _ (by intro _ _ _ _ h; cases h)
          (by intro _ _ _ _ h; cases h), hm]
        rfl
      · intro x hx
        rcases List.mem_cons.1 hx with rfl | hx
        · exact hin _ (List.mem_cons_self _ _)
        · exact hmm x hx
    | nodeRunRetrieverResource a b =>
      obtain ⟨mid, last, hm, hl, hmm⟩ := ih outs outcome hoof hin'
      refine ⟨Event.nodeRunRetrieverResource a b :: mid, last, ?_, hl, ?_⟩
      · rw [processLoop_cons_other outs outcome _ _ (by intro _ _ _ _ h; cases h)
          (by intro _ _ _ _ h; cases h), hm]
        rfl
      · intro x hx
        rcases List.mem_cons.1 hx with rfl | hx
        · exact hin _ (List.mem_cons_self _ _)
        · exact hmm x hx
    | parallelBranchRunStarted p s =>
      obtain ⟨mid, last, hm, hl, hmm⟩ := ih outs outcome hoof hin'
      refine ⟨Event.parallelBranchRunStarted p s :: mid, last, ?_, hl, ?_⟩
      · rw [processLoop_cons_other outs outcome _ _ (by intro _ _ _ _ h; cases h)
          (by intro _ _ _ _ h; cases h), hm]
        rfl
      · intro x hx
        rcases List.mem_cons.1 hx with rfl | hx
        · exact hin _ (List.mem_cons_self _ _)
        · exact hmm x hx
    | parallelBranchRunSucceeded p s =>
      obtain ⟨mid, last, hm, hl, hmm⟩ := ih outs outcome hoof hin'
      refine ⟨Event.parallelBranchRunSucceeded p s :: mid, last, ?_, hl, ?_⟩
      · rw [processLoop_cons_other outs outcome _ _ (by intro _ _ _ _ h; cases h)
          (by intro _ _ _ _ h; cases h), hm]
        rfl
      · intro x hx
        rcases List.mem_cons.1 hx with rfl | hx
        · exact hin _ (List.mem_cons_self _ _)
        · exact hmm x hx
    | parallelBranchRunFailed p s m =>
      obtain ⟨mid, last, hm, hl, hmm⟩ := ih outs outcome hoof hin'
      refine ⟨Event.parallelBranchRunFailed p s m :: mid, last, ?_, hl, ?_⟩
      · rw [processLoop_cons_other outs outcome _ _ (by intro _ _ _ _ h; cases h)
          (by intro _ _ _ _ h; cases h), hm]
        rfl
      · intro x hx
        rcases List.mem_cons.1 hx with rfl | hx
        · exact hin _ (List.mem_cons_self _ _)
        · exact hmm x hx
    | iterationEvent t =>
      obtain ⟨mid, last, hm, hl, hmm⟩ := ih outs outcome hoof hin'
      refine ⟨Event.iterationEvent t :: mid, last, ?_, hl, ?_⟩
      · rw [processLoop_cons_other outs outcome _ _ (by intro _ _ _ _ h; cases h)
          (by intro _ _ _ _ h; cases h), hm]
        rfl
      · intro x hx
        rcases List.mem_cons.1 hx with rfl | hx
        · exact hin _ (List.mem_cons_self _ _)
        · exact hmm x hx

theorem processLoop_prefix :
    ∀ (evs : List Event) (outs : List (String × PyValue)) (outcome : RunOutcome),
      ∃ kept rest extra, evs = kept ++ rest
        ∧ processLoop outs outcome evs = kept ++ extra
        ∧ startedIndices extra = [] := by
  intro evs
  induction evs with
  | nil =>
    intro outs outcome
    refine ⟨[], [], processLoop outs outcome [], rfl, rfl, ?_⟩
    cases outcome <;> simp [processLoop, startedIndices]
  | cons e rest ih =>
    intro outs outcome
    cases e with
    | nodeRunFailed a b c d =>
      exact ⟨[.nodeRunFailed a b c d], rest,
        [.graphRunFailed (pyOr c.failed_reason "Unknown error.")], rfl, rfl,
        by simp [startedIndices]⟩
    | nodeRunSucceeded a b c d =>
      rcases hupd : updateOutputsOnSucceeded outs b c with outs' | msg
      · exact ⟨[.nodeRunSucceeded a b c d], rest, [.graphRunFailed outs'], rfl,
          by simp [processLoop, hupd], by simp [startedIndices]⟩
      · obtain ⟨kept, r, extra, he, hp, hx⟩ := ih msg outcome
        refine ⟨.nodeRunSucceeded a b c d :: kept, r, extra, by rw [List.cons_append, ← he],
          ?_, hx⟩
        simp [processLoop, hupd, hp]
    | graphRunStarted =>
      obtain ⟨kept, r, extra, he, hp, hx⟩ := ih outs outcome
      refine ⟨Event.graphRunStarted :: kept, r, extra, by rw [List.cons_append, ← he], ?_, hx⟩
      rw [processLoop_cons_other outs outcome _ _ (by intro _ _ _ _ h; cases h)
        (by intro _ _ _ _ h; cases h), hp, List.cons_append]
    | graphRunSucceeded o =>
      obtain ⟨kept, r, extra, he, hp, hx⟩ := ih outs outcome
      refine ⟨Event.graphRunSucceeded o :: kept, r, extra, by rw [List.cons_append, ← he],
        ?_, hx⟩
      rw [processLoop_cons_other outs outcome _ _ (by intro _ _ _ _ h; cases h)
        (by intro _ _ _ _ h; cases h), hp, List.cons_append]
    | graphRunFailed m =>
      obtain ⟨kept, r, extra, he, hp, hx⟩ := ih outs outcome
      refine ⟨Event.graphRunFailed m :: kept, r, extra, by rw [List.cons_append, ← he], ?_, hx⟩
      rw [processLoop_cons_other outs outcome _ _ (by intro _ _ _ _ h; cases h)
        (by intro _ _ _ _ h; cases h), hp, List.cons_append]
    | nodeRunStarted a b c d f =>
      obtain ⟨kept, r, extra, he, hp, hx⟩ := ih outs outcome
      refine ⟨Event.nodeRunStarted a b c d f :: kept, r, extra,
        by rw [List.cons_append, ← he], ?_, hx⟩
      rw [processLoop_cons_other outs outcome _ _ (by intro _ _ _ _ h; cases h)
        (by intro _ _ _ _ h; cases h), hp, List.cons_append]
    | nodeRunStreamChunk a b c =>
      obtain ⟨kept, r, extra, he, hp, hx⟩ := ih outs outcome
      refine ⟨Event.nodeRunStreamChunk a b c :: kept, r, extra,
        by rw [List.cons_append, ← he], ?_, hx⟩
      rw [processLoop_cons_other outs outcome _ _ (by intro _ _ _ _ h; cases h)
        (by intro _ _ _ _ h; cases h), hp, List.cons_append]
    | nodeRunRetrieverResource a b =>
      obtain ⟨kept, r, extra, he, hp, hx⟩ := ih outs outcome
      refine ⟨Event.nodeRunRetrieverResource a b :: kept, r, extra,
        by rw [List.cons_append, ← he], ?_, hx⟩
      rw [processLoop_cons_other outs outcome _ _ (by intro _ _ _ _ h; cases h)
        (by intro _ _ _ _ h; cases h), hp, List.cons_append]
    | parallelBranchRunStarted p s =>
      obtain ⟨kept, r, extra, he, hp, hx⟩ := ih outs outcome
      refine ⟨Event.parallelBranchRunStarted p s :: kept, r, extra,
        by rw [List.cons_append, ← he], ?_, hx⟩
      rw [processLoop_cons_other outs outcome _ _ (by intro _ _ _ _ h; cases h)
        (by intro _ _ _ _ h; cases h), hp, List.cons_append]
    | parallelBranchRunSucceeded p s =>
      obtain ⟨kept, r, extra, he, hp, hx⟩ := ih outs outcome
      refine ⟨Event.parallelBranchRunSucceeded p s :: kept, r, extra,
        by rw [List.cons_append, ← he], ?_, hx⟩
      rw [processLoop_cons_other outs outcome _ _ (by intro _ _ _ _ h; cases h)
        (by intro _ _ _ _ h; cases h), hp, List.cons_append]
    | parallelBranchRunFailed p s m =>
      obtain ⟨kept, r, extra, he, hp, hx⟩ := ih outs outcome
      refine ⟨Event.parallelBranchRunFailed p s m :: kept, r, extra,
        by rw [List.cons_append, ← he], ?_, hx⟩
      rw [processLoop_cons_other outs outcome _ _ (by intro _ _ _ _ h; cases h)
        (by intro _ _ _ _ h; cases h), hp, List.cons_append]
    | iterationEvent t =>
      obtain ⟨kept, r, extra, he, hp, hx⟩ := ih outs outcome
      refine ⟨Event.iterationEvent t :: kept, r, extra, by rw [List.cons_append, ← he],
        ?_, hx⟩
      rw [processLoop_cons_other outs outcome _ _ (by intro _ _ _ _ h; cases h)
        (by intro _ _ _ _ h; cases h), hp, List.cons_append]

/-! ### Variable-pool lemmas (claim C7) -/

mutual

/-- A recursive insertion leaves every path that does not extend
`node_id :: keys` untouched: all its writes are at `node_id :: (keys ++ _)`. -/
theorem append_get_untouched :
    ∀ (v : PyValue) (pool : Pool) (n : String) (keys q : List String),
      (∀ suffix, q ≠ n :: (keys ++ suffix)) →
      append_variables_recursively pool n keys v q = pool q
  | .str _, pool, n, keys, q, h => by
    have hq : q ≠ n :: keys := by simpa using h []
    simp [append_variables_recursively, Pool.add, hq]
  | .int _, pool, n, keys, q, h => by
    have hq : q ≠ n :: keys := by simpa using h []
    simp [append_variables_recursively, Pool.add, hq]
  | .dict entries, pool, n, keys, q, h => by
    have hq : q ≠ n :: keys := by simpa using h []
    show appendEntries (Pool.add pool (n :: keys) (.dict entries)) n keys entries q = pool q
    rw [appendEntries_get_untouched entries _ n keys q
      (fun kv _ suffix => h (kv.1 :: suffix))]
    simp [Pool.add, hq]

/-- The entries loop of a recursive insertion leaves every path that does not
extend `node_id :: keys` by one of the entry keys untouched. -/
theorem appendEntries_get_untouched :
    ∀ (entries : List (String × PyValue)) (pool : Pool) (n : String) (keys q : List String),
      (∀ kv ∈ entries, ∀ suffix, q ≠ n :: (keys ++ kv.1 :: suffix)) →
      appendEntries pool n keys entries q = pool q
  | [], _, _, _, _, _ => rfl
  | (key, value) :: rest, pool, n, keys, q, h => by
    show appendEntries
        (append_variables_recursively pool n (keys ++ [key]) value) n keys rest q = pool q
    rw [appendEntries_get_untouched rest _ n keys q
      (fun kv hkv => h kv (List.mem_cons_of_mem _ hkv))]
    exact append_get_untouched value pool n (keys ++ [key]) q
      (fun suffix => by
        have := h (key, value) (List.mem_cons_self _ _) suffix
        simpa [List.append_assoc] using this)

end

/-- A recursive insertion makes the inserted value retrievable at its own
path `node_id :: keys`. -/
theorem append_get_here (v : PyValue) (pool : Pool) (n : String) (keys : List String) :
    append_variables_recursively pool n keys v (n :: keys) = some v := by
  cases v with
  | str s => simp [append_variables_recursively, Pool.add]
  | int i => simp [append_variables_recursively, Pool.add]
  | dict entries =>
    show appendEntries (Pool.add pool (n :: keys) (.dict entries)) n keys entries
        (n :: keys) = some (.dict entries)
    rw [appendEntries_get_untouched entries _ n keys (n :: keys)
      (fun kv _ suffix => by simp)]
    simp [Pool.add]

/-- After the entries loop, each entry's value is retrievable at the path
extended with its key (entry keys pairwise distinct, as in a Python dict). -/
theorem appendEntries_get_child :
    ∀ (entries : List (String × PyValue)) (pool : Pool) (n : String) (keys : List String)
      (ck : String) (cv : PyValue),
      (ck, cv) ∈ entries → (entries.map Prod.fst).Nodup →
      appendEntries pool n keys entries (n :: (keys ++ [ck])) = some cv := by
  intro entries
  induction entries with
  | nil =>
    intro pool n keys ck cv hmem _
    cases hmem
  | cons kv rest ih =>
    intro pool n keys ck cv hmem hnd
    obtain ⟨key, value⟩ := kv
    rw [List.map_cons, List.nodup_cons] at hnd
    show appendEntries
        (append_variables_recursively pool n (keys ++ [key]) value) n keys rest
        (n :: (keys ++ [ck])) = some cv
    rcases List.mem_cons.1 hmem with heq | hmem'
    · injection heq with h1 h2
      subst h1
      subst h2
      rw [appendEntries_get_untouched rest _ n keys _ ?_]
      · exact append_get_here cv pool n (keys ++ [ck])
      · intro kv' hkv' suffix heq'
        have h3 : keys ++ [ck] = keys ++ kv'.1 :: suffix := by
          exact (List.cons.injEq .. ▸ heq').2
        have h4 : [ck] = kv'.1 :: suffix := List.append_cancel_left h3
        have h5 : kv'.1 = ck := ((List.cons.injEq .. ▸ h4).1).symm
        exact hnd.1 (List.mem_map.2 ⟨kv', hkv', h5⟩)
    · exact ih _ n keys ck cv hmem' hnd.2

/-! ### Conditional-branch lemmas (claim C6) -/

/-- The edge-walking loop of `_run` computes exactly the specification's
conditional winner: the first conditioned edge, in list order, whose
condition holds; unconditional edges never participate. -/
theorem selectConditional_eq_spec (check : RunCondition → String → Bool) :
    ∀ (edges : List Edge),
      selectConditionalBranch check edges = specConditionalWinner check edges := by
  intro edges
  induction edges with
  | nil => rfl
  | cons edge rest ih =>
    rcases hc : edge.run_condition with _ | cond
    · simp only [selectConditionalBranch, hc]
      rw [ih]
      simp [specConditionalWinner, List.filter_cons, hc]
    · simp only [selectConditionalBranch, hc]
      by_cases hchk : check cond edge.target_node_id
      · simp [hchk, specConditionalWinner, List.filter_cons, hc, List.find?_cons]
      · simp only [hchk, if_false]
        rw [ih]
        simp [specConditionalWinner, List.filter_cons, hc, List.find?_cons, hchk]

/-- Soundness of the edge-walking loop: a chosen branch is the target of an
edge of the list that carries a condition evaluating true. -/
theorem selectConditional_sound (check : RunCondition → String → Bool) :
    ∀ (edges : List Edge) (n : String),
      selectConditionalBranch check edges = some n →
      ∃ e, e ∈ edges ∧ ∃ cond, e.run_condition = some cond
        ∧ check cond e.target_node_id = true ∧ e.target_node_id = n := by
  intro edges
  induction edges with
  | nil =>
    intro n h
    simp [selectConditionalBranch] at h
  | cons edge rest ih =>
    intro n h
    rcases hc : edge.run_condition with _ | cond
    · simp only [selectConditionalBranch, hc] at h
      obtain ⟨e, he, hrest⟩ := ih n h
      exact ⟨e, List.mem_cons_of_mem _ he, hrest⟩
    · simp only [selectConditionalBranch, hc] at h
      by_cases hchk : check cond edge.target_node_id
      · rw [if_pos hchk] at h
        exact ⟨edge, List.mem_cons_self _ _, cond, hc, by simp [hchk],
          Option.some.inj h⟩
      · rw [if_neg hchk] at h
        obtain ⟨e, he, hrest⟩ := ih n h
        exact ⟨e, List.mem_cons_of_mem _ he, hrest⟩

/-! ### Node-runner lemmas (claims C8 and C10) -/

/-- Unfolding of `consumeItems` at a stream-chunk item, with the tuple
projections exposed. -/
theorem consumeItems_cons_chunk (node_id : String) (node_type : NodeType) (tags : PTags)
    (chunk : String) (rest : List NodeItem) (ending : NodeEnding)
    (route : RouteNodeState) (st : RuntimeState) :
    consumeItems node_id node_type tags (.runStreamChunk chunk :: rest) ending route st
      = (.nodeRunStreamChunk node_id chunk tags
            :: (consumeItems node_id node_type tags rest ending route st).1,
         (consumeItems node_id node_type tags rest ending route st).2) := rfl

/-- Unfolding of `consumeItems` at a retriever-resource item. -/
theorem consumeItems_cons_retriever (node_id : String) (node_type : NodeType) (tags : PTags)
    (rest : List NodeItem) (ending : NodeEnding)
    (route : RouteNodeState) (st : RuntimeState) :
    consumeItems node_id node_type tags (.runRetrieverResource :: rest) ending route st
      = (.nodeRunRetrieverResource node_id tags
            :: (consumeItems node_id node_type tags rest ending route st).1,
         (consumeItems node_id node_type tags rest ending route st).2) := rfl

/-- Unfolding of `consumeItems` at a pass-through iteration item. -/
theorem consumeItems_cons_iteration (node_id : String) (node_type : NodeType) (tags : PTags)
    (rest : List NodeItem) (ending : NodeEnding)
    (route : RouteNodeState) (st : RuntimeState) :
    consumeItems node_id node_type tags (.iterationEvent :: rest) ending route st
      = (.iterationEvent tags
            :: (consumeItems node_id node_type tags rest ending route st).1,
         (consumeItems node_id node_type tags rest ending route st).2) := rfl

/-- A `RunCompleted` item whose result status is still `running` finalizes
the route state with that result, stops the item loop (the items and ending
after it are never reached), emits no per-node terminal event, and leaves
the runtime state untouched. -/
theorem consumeItems_running (node_id : String) (node_type : NodeType) (tags : PTags)
    (r : NodeRunResult) (hs : r.status ≠ .succeeded) (hf : r.status ≠ .failed) :
    ∀ (pre : List NodeItem), (∀ item ∈ pre, item.isRunCompleted = false) →
      ∀ (post post' : List NodeItem) (ending ending' : NodeEnding)
        (route : RouteNodeState) (st : RuntimeState),
      consumeItems node_id node_type tags (pre ++ .runCompleted r :: post) ending route st
          = consumeItems node_id node_type tags (pre ++ .runCompleted r :: post') ending' route st
      ∧ (consumeItems node_id node_type tags (pre ++ .runCompleted r :: post) ending route st).2.1
          = route.set_finished r
      ∧ (consumeItems node_id node_type tags (pre ++ .runCompleted r :: post) ending route st).2.2.1
          = st
      ∧ (consumeItems node_id node_type tags (pre ++ .runCompleted r :: post) ending route st).2.2.2
          = .normal
      ∧ ∀ e ∈ (consumeItems node_id node_type tags (pre ++ .runCompleted r :: post) ending route st).1,
          isNodeTerminal e = false := by
  intro pre
  induction pre with
  | nil =>
    intro _ post post' ending ending' route st
    simp [consumeItems, hs, hf]
  | cons item rest ih =>
    intro hnc post post' ending ending' route st
    have hnc' : ∀ x ∈ rest, NodeItem.isRunCompleted x = false :=
      fun x hx => hnc x (List.mem_cons_of_mem _ hx)
    cases item with
    | runCompleted r' =>
      exact absurd (hnc _ (List.mem_cons_self _ _)) (by simp [NodeItem.isRunCompleted])
    | runStreamChunk chunk =>
      obtain ⟨h0, h1, h2, h3, h4⟩ := ih hnc' post post' ending ending' route st
      refine ⟨?_, ?_, ?_, ?_, ?_⟩
      · simp only [List.cons_append, consumeItems_cons_chunk]
        rw [h0]
      · simp only [List.cons_append, consumeItems_cons_chunk]
        exact h1
      · simp only [List.cons_append, consumeItems_cons_chunk]
        exact h2
      · simp only [List.cons_append, consumeItems_cons_chunk]
        exact h3
      · simp only [List.cons_append, consumeItems_cons_chunk]
        intro x hx
        rcases List.mem_cons.1 hx with rfl | hx
        · rfl
        · exact h4 x hx
    | runRetrieverResource =>
      obtain ⟨h0, h1, h2, h3, h4⟩ := ih hnc' post post' ending ending' route st
      refine ⟨?_, ?_, ?_, ?_, ?_⟩
      · simp only [List.cons_append, consumeItems_cons_retriever]
        rw [h0]
      · simp only [List.cons_append, consumeItems_cons_retriever]
        exact h1
      · simp only [List.cons_append, consumeItems_cons_retriever]
        exact h2
      · simp only [List.cons_append, consumeItems_cons_retriever]
        exact h3
      · simp only [List.cons_append, consumeItems_cons_retriever]
        intro x hx
        rcases List.mem_cons.1 hx with rfl | hx
        · rfl
        · exact h4 x hx
    | iterationEvent =>
      obtain ⟨h0, h1, h2, h3, h4⟩ := ih hnc' post post' ending ending' route st
      refine ⟨?_, ?_, ?_, ?_, ?_⟩
      · simp only [List.cons_append, consumeItems_cons_iteration]
        rw [h0]
      · simp only [List.cons_append, consumeItems_cons_iteration]
        exact h1
      · simp only [List.cons_append, consumeItems_cons_iteration]
        exact h2
      · simp only [List.cons_append, consumeItems_cons_iteration]
        exact h3
      · simp only [List.cons_append, consumeItems_cons_iteration]
        intro x hx
        rcases List.mem_cons.1 hx with rfl | hx
        · rfl
        · exact h4 x hx

/-! ### The claims -/

/-- C1: for every run of `GraphEngine.run()` (with enough fuel for the model
interpreter, which the step limit always grants), the first event yielded is
`GraphRunStarted`, and the last event emitted is exactly one of
`GraphRunSucceeded` or `GraphRunFailed`: it is terminal, no event follows it,
and no other event of the stream is a terminal framing event. -/
theorem claim_C1 (env : Env) (fuel : Nat) (pool : Pool)
    (hfuel : env.max_execution_steps + 2 ≤ fuel) :
    ∃ mid last, run env fuel pool = .graphRunStarted :: (mid ++ [last])
      ∧ isGraphTerminal last = true
      ∧ ∀ e ∈ mid, isInnerEvent e := by
  have inv := run_path_inv env fuel env.graph.root_node_id none none none (initState pool)
  have hoof :
      (run_path env fuel env.graph.root_node_id none none none (initState pool)).2.2
        ≠ .outOfFuel := by
    apply inv.2.2.2.2.1
    have h0 : (initState pool).node_run_steps = 0 := rfl
    omega
  obtain ⟨mid, last, hm, hl, hmm⟩ :=
    processLoop_terminal
      (run_path env fuel env.graph.root_node_id none none none (initState pool)).1 []
      (run_path env fuel env.graph.root_node_id none none none (initState pool)).2.2
      hoof inv.2.2.2.2.2
  refine ⟨mid, last, ?_, hl, hmm⟩
  show Event.graphRunStarted
      :: processLoop []
        (run_path env fuel env.graph.root_node_id none none none (initState pool)).2.2
        (stream_process
          (run_path env fuel env.graph.root_node_id none none none (initState pool)).1)
      = _
  rw [stream_process, hm]

/-- C1 witness: the one-node scenario graph with its default limits. -/
theorem claim_C1_witness :
    envC1.max_execution_steps + 2 ≤ 502
    ∧ ∃ mid last, run envC1 502 Pool.empty = .graphRunStarted :: (mid ++ [last])
        ∧ isGraphTerminal last = true
        ∧ ∀ e ∈ mid, isInnerEvent e :=
  ⟨by decide, claim_C1 envC1 502 Pool.empty (by decide)⟩

/-- C2 (amended): the executor fails with `"Max steps N reached."` only when
`node_run_steps > max_execution_steps` holds at the top of an iteration (a
strict check), so no more than `N + 1` nodes are ever started; with
`max_execution_steps = 2` over the five-node sequential graph S5 the run
starts and completes three nodes (`N + 1 = 3`) and fails during step 4's
top-of-loop check, with the exact error text `"Max steps 2 reached."`. -/
theorem claim_C2 (env : Env) (fuel : Nat) (pool : Pool) :
    startedCount (run env fuel pool) ≤ env.max_execution_steps + 1
    ∧ (run envC2 10 Pool.empty).map eventName
        = ["GraphRunStarted", "NodeRunStarted n1", "NodeRunSucceeded n1",
           "NodeRunStarted n2", "NodeRunSucceeded n2",
           "NodeRunStarted n3", "NodeRunSucceeded n3",
           "GraphRunFailed Max steps 2 reached."]
    ∧ startedCount (run envC2 10 Pool.empty) = 3 := by
  refine ⟨?_, by rfl, by rfl⟩
  have inv := run_path_inv env fuel env.graph.root_node_id none none none (initState pool)
  have h0 : (initState pool).node_run_steps = 0 := rfl
  obtain ⟨kept, rest, extra, he, hp, hx⟩ :=
    processLoop_prefix
      (run_path env fuel env.graph.root_node_id none none none (initState pool)).1 []
      (run_path env fuel env.graph.root_node_id none none none (initState pool)).2.2
  have h1 : startedCount (run env fuel pool) = startedCount kept := by
    show startedCount (Event.graphRunStarted
        :: processLoop []
          (run_path env fuel env.graph.root_node_id none none none (initState pool)).2.2
          (stream_process
            (run_path env fuel env.graph.root_node_id none none none (initState pool)).1))
      = _
    rw [stream_process, hp]
    simp [startedCount, startedIndices, startedIndices_append, hx]
  have h2 : startedCount kept
      ≤ startedCount
          (run_path env fuel env.graph.root_node_id none none none (initState pool)).1 := by
    rw [he]
    exact startedCount_prefix_le kept rest
  have h3 := inv.2.1
  have h4 := inv.2.2.2.1 (by omega)
  omega

/-- C2 counterexample to the original wording: with `max_execution_steps = 2`
over the five-node sequential graph the run does not fail "after step 2
completes or during step 3's top-of-loop check" — a third node is started and
runs to completion before the limit check fails the run. -/
theorem claim_C2_counterexample :
    envC2.max_execution_steps = 2
    ∧ startedCount (run envC2 10 Pool.empty) = 3
    ∧ (run envC2 10 Pool.empty).map eventName
        = ["GraphRunStarted", "NodeRunStarted n1", "NodeRunSucceeded n1",
           "NodeRunStarted n2", "NodeRunSucceeded n2",
           "NodeRunStarted n3", "NodeRunSucceeded n3",
           "GraphRunFailed Max steps 2 reached."] :=
  ⟨rfl, rfl, rfl⟩

/-- C9 (amended): the `route_node_state.index` values carried by successive
`NodeRunStarted` events are the consecutive naturals `1, 2, …` in stream
order — strictly monotonically increasing starting at 1 — under a schedule
in which each started event's counter increment, index stamp and enqueue
complete without preemption: so for every run of the serialized-schedule
interpreter, and likewise in the shared-memory stamping model when the
scheduler serializes the two workers' stamping sections.  (Each flowing
`NodeRunStarted` does increment `node_run_steps` and stamp the new counter
value; but the increment is unsynchronized, so under other preemptive
schedules the property fails — see the counterexample.) -/
theorem claim_C9 (env : Env) (fuel : Nat) (pool : Pool) :
    startedIndices (run env fuel pool)
      = List.range' 1 (startedCount (run env fuel pool))
    ∧ (runSchedule [true, true, true, true, false, false, false, false] raceInit).queue
        = [2, 3]
    ∧ List.Chain' (fun a b => a < b)
        ((runSchedule [true, true, true, true, false, false, false, false] raceInit).queue)
        := by
  refine ⟨?_, rfl,
    show List.Chain' (fun a b => a < b) [2, 3] from List.chain'_pair.2 (by omega)⟩
  have inv := run_path_inv env fuel env.graph.root_node_id none none none (initState pool)
  have h0 : (initState pool).node_run_steps = 0 := rfl
  obtain ⟨kept, rest, extra, he, hp, hx⟩ :=
    processLoop_prefix
      (run_path env fuel env.graph.root_node_id none none none (initState pool)).1 []
      (run_path env fuel env.graph.root_node_id none none none (initState pool)).2.2
  have hrun : startedIndices (run env fuel pool) = startedIndices kept := by
    show startedIndices (Event.graphRunStarted
        :: processLoop []
          (run_path env fuel env.graph.root_node_id none none none (initState pool)).2.2
          (stream_process
            (run_path env fuel env.graph.root_node_id none none none (initState pool)).1))
      = _
    rw [stream_process, hp]
    simp [startedIndices, startedIndices_append, hx]
  have hcnt : startedCount (run env fuel pool) = startedCount kept := by
    rw [startedCount, hrun, startedCount]
  have hinv1 := inv.1
  rw [h0] at hinv1
  rw [he] at hinv1
  rw [hrun, hcnt]
  exact startedIndices_prefix_range kept rest 1 hinv1

/-- C3: in a parallel fan-out, a `ParallelBranchRunFailed` of the group's
`parallel_id` posted by a failing branch makes the drain loop stop there and
raise `GraphRunFailedError` carrying that branch's error string; in scenario
S6 (branch B raises `"boom"`) the outer traversal ends with
`GraphRunFailedError("boom")` and the whole run terminates with
`GraphRunFailed{error="boom"}`. -/
theorem claim_C3 (pid : String) (pre rest : List Event) (succ : Nat) (s err : String)
    (hclean : ∀ e ∈ pre, isPBFailedFor pid e = false) :
    drainLoop pid succ (pre ++ .parallelBranchRunFailed pid s err :: rest)
      = (pre ++ [.parallelBranchRunFailed pid s err], some err)
    ∧ (run_path envS6 502 "src" none none none (initState Pool.empty)).2.2
        = .failed "boom"
    ∧ (run envS6 502 Pool.empty).getLast? = some (.graphRunFailed "boom")
    ∧ (run envS6 502 Pool.empty).map eventName
        = ["GraphRunStarted", "NodeRunStarted src", "NodeRunSucceeded src",
           "ParallelBranchRunStarted P A", "NodeRunStarted A", "NodeRunSucceeded A",
           "ParallelBranchRunSucceeded P A", "ParallelBranchRunStarted P B",
           "NodeRunStarted B", "NodeRunFailed B boom", "GraphRunFailed boom"] := by
  refine ⟨?_, by rfl, by rfl, by rfl⟩
  rw [drainLoop_append_clean pid pre _ succ hclean]
  simp [drainLoop]

/-- C3 witness: a clean forwarded prefix followed by branch B's failure of
group P with error `"boom"`. -/
theorem claim_C3_witness :
    drainLoop "P" 0
        ([Event.parallelBranchRunStarted "P" "A"]
          ++ .parallelBranchRunFailed "P" "B" "boom" :: [])
      = ([.parallelBranchRunStarted "P" "A",
          .parallelBranchRunFailed "P" "B" "boom"], some "boom")
    ∧ (run_path envS6 502 "src" none none none (initState Pool.empty)).2.2
        = .failed "boom"
    ∧ (run envS6 502 Pool.empty).getLast? = some (.graphRunFailed "boom")
    ∧ (run envS6 502 Pool.empty).map eventName
        = ["GraphRunStarted", "NodeRunStarted src", "NodeRunSucceeded src",
           "ParallelBranchRunStarted P A", "NodeRunStarted A", "NodeRunSucceeded A",
           "ParallelBranchRunSucceeded P A", "ParallelBranchRunStarted P B",
           "NodeRunStarted B", "NodeRunFailed B boom", "GraphRunFailed boom"] :=
  claim_C3 "P" [.parallelBranchRunStarted "P" "A"] [] 0 "B" "boom" (by decide)

/-- C4: when the facade loop of `GraphEngine.run` meets a `NodeRunFailed`
event (the first one of the stream, the output bookkeeping before it having
raised no exception), it yields that event, immediately emits
`GraphRunFailed` whose error is the failed route state's `failed_reason` —
`"Unknown error."` when that is `None` or empty — and yields nothing
further. -/
theorem claim_C4 :
    ∀ (pre : List Event) (outs outs' : List (String × PyValue)) (outcome : RunOutcome)
      (rest : List Event) (err nid : String) (route : RouteNodeState) (tags : PTags),
      (∀ e ∈ pre, isNodeFailed e = false) →
      foldOutputs outs pre = .ok outs' →
      processLoop outs outcome (pre ++ .nodeRunFailed err nid route tags :: rest)
        = pre ++ [.nodeRunFailed err nid route tags,
            .graphRunFailed (pyOr route.failed_reason "Unknown error.")] := by
  intro pre
  induction pre with
  | nil =>
    intro outs outs' outcome rest err nid route tags _ _
    simp [processLoop]
  | cons e pre' ih =>
    intro outs outs' outcome rest err nid route tags hpre hfold
    have hpre' : ∀ x ∈ pre', isNodeFailed x = false :=
      fun x hx => hpre x (List.mem_cons_of_mem _ hx)
    cases e with
    | nodeRunFailed a b c d =>
      exact absurd (hpre _ (List.mem_cons_self _ _)) (by simp [isNodeFailed])
    | nodeRunSucceeded a b c d =>
      rcases hupd : updateOutputsOnSucceeded outs b c with msg | outs₁
      · rw [foldOutputs, hupd] at hfold
        cases hfold
      · rw [foldOutputs, hupd] at hfold
        rw [List.cons_append]
        rw [show processLoop outs outcome
              (Event.nodeRunSucceeded a b c d :: (pre' ++ .nodeRunFailed err nid route tags :: rest))
            = Event.nodeRunSucceeded a b c d
                :: processLoop outs₁ outcome (pre' ++ .nodeRunFailed err nid route tags :: rest)
          from by simp [processLoop, hupd]]
        rw [ih outs₁ outs' outcome rest err nid route tags hpre' hfold]
        rfl
    | graphRunStarted =>
      rw [List.cons_append, processLoop_cons_other outs outcome _ _
          (by intro _ _ _ _ h; cases h) (by intro _ _ _ _ h; cases h),
        ih outs outs' outcome rest err nid route tags hpre'
          ((foldOutputs_cons_other outs _ _ (by intro _ _ _ _ h; cases h)).symm.trans hfold)]
      rfl
    | graphRunSucceeded o =>
      rw [List.cons_append, processLoop_cons_other outs outcome _ _
          (by intro _ _ _ _ h; cases h) (by intro _ _ _ _ h; cases h),
        ih outs outs' outcome rest err nid route tags hpre'
          ((foldOutputs_cons_other outs _ _ (by intro _ _ _ _ h; cases h)).symm.trans hfold)]
      rfl
    | graphRunFailed m =>
      rw [List.cons_append, processLoop_cons_other outs outcome _ _
          (by intro _ _ _ _ h; cases h) (by intro _ _ _ _ h; cases h),
        ih outs outs' outcome rest err nid route tags hpre'
          ((foldOutputs_cons_other outs _ _ (by intro _ _ _ _ h; cases h)).symm.trans hfold)]
      rfl
    | nodeRunStarted a b c d f =>
      rw [List.cons_append, processLoop_cons_other outs outcome _ _
          (by intro _ _ _ _ h; cases h) (by intro _ _ _ _ h; cases h),
        ih outs outs' outcome rest err nid route tags hpre'
          ((foldOutputs_cons_other outs _ _ (by intro _ _ _ _ h; cases h)).symm.trans hfold)]
      rfl
    | nodeRunStreamChunk a b c =>
      rw [List.cons_append, processLoop_cons_other outs outcome _ _
          (by intro _ _ _ _ h; cases h) (by intro _ _ _ _ h; cases h),
        ih outs outs' outcome rest err nid route tags hpre'
          ((foldOutputs_cons_other outs _ _ (by intro _ _ _ _ h; cases h)).symm.trans hfold)]
      rfl
    | nodeRunRetrieverResource a b =>
      rw [List.cons_append, processLoop_cons_other outs outcome _ _
          (by intro _ _ _ _ h; cases h) (by intro _ _ _ _ h; cases h),
        ih outs outs' outcome rest err nid route tags hpre'
          ((foldOutputs_cons_other outs _ _ (by intro _ _ _ _ h; cases h)).symm.trans hfold)]
      rfl
    | parallelBranchRunStarted p q =>
      rw [List.cons_append, processLoop_cons_other outs outcome _ _
          (by intro _ _ _ _ h; cases h) (by intro _ _ _ _ h; cases h),
        ih outs outs' outcome rest err nid route tags hpre'
          ((foldOutputs_cons_other outs _ _ (by intro _ _ _ _ h; cases h)).symm.trans hfold)]
      rfl
    | parallelBranchRunSucceeded p q =>
      rw [List.cons_append, processLoop_cons_other outs outcome _ _
          (by intro _ _ _ _ h; cases h) (by intro _ _ _ _ h; cases h),
        ih outs outs' outcome rest err nid route tags hpre'
          ((foldOutputs_cons_other outs _ _ (by intro _ _ _ _ h; cases h)).symm.trans hfold)]
      rfl
    | parallelBranchRunFailed p q m =>
      rw [List.cons_append, processLoop_cons_other outs outcome _ _
          (by intro _ _ _ _ h; cases h) (by intro _ _ _ _ h; cases h),
        ih outs outs' outcome rest err nid route tags hpre'
          ((foldOutputs_cons_other outs _ _ (by intro _ _ _ _ h; cases h)).symm.trans hfold)]
      rfl
    | iterationEvent t =>
      rw [List.cons_append, processLoop_cons_other outs outcome _ _
          (by intro _ _ _ _ h; cases h) (by intro _ _ _ _ h; cases h),
        ih outs outs' outcome rest err nid route tags hpre'
          ((foldOutputs_cons_other outs _ _ (by intro _ _ _ _ h; cases h)).symm.trans hfold)]
      rfl

/-- C4 witness: a failed node whose route state carries reason `"boom"`,
after one forwarded non-terminal event; the failure event is yielded, then
`GraphRunFailed "boom"`, and the following events are dropped. -/
theorem claim_C4_witness :
    processLoop [] .ok
        ([Event.iterationEvent ⟨none, none⟩]
          ++ .nodeRunFailed "boom" "n"
              ⟨0, "n", .failed, 1, some "boom", none⟩ ⟨none, none⟩
            :: [Event.iterationEvent ⟨none, none⟩])
      = [Event.iterationEvent ⟨none, none⟩,
         .nodeRunFailed "boom" "n" ⟨0, "n", .failed, 1, some "boom", none⟩ ⟨none, none⟩,
         .graphRunFailed "boom"] :=
  claim_C4 [Event.iterationEvent ⟨none, none⟩] [] [] .ok
    [Event.iterationEvent ⟨none, none⟩] "boom" "n"
    ⟨0, "n", .failed, 1, some "boom", none⟩ ⟨none, none⟩
    (by intro e he; rcases List.mem_singleton.1 he with rfl; rfl) (by rfl)

/-- C5: over scenario S2 the run succeeds with `outputs["answer"] =
"foo\nbar"`; in general an `Answer` node's completion appends a newline plus
the node's `answer` output to the accumulated `outputs["answer"]` — the empty
string when the node produced no `answer` output — and strips the result. -/
theorem claim_C5 :
    (run envS2 502 Pool.empty).getLast?
        = some (.graphRunSucceeded [("answer", .str "foo\nbar")])
    ∧ (∀ (outputs : List (String × PyValue)) (route : RouteNodeState)
          (r : NodeRunResult) (current a : String),
        route.node_run_result = some r →
        alookup outputs "answer" = some (.str current) →
        r.outputs.isEmpty = false →
        alookup r.outputs "answer" = some (.str a) →
        updateOutputsOnSucceeded outputs .answer route
          = .ok (aset outputs "answer" (.str (pyStrip (current ++ "\n" ++ a)))))
    ∧ (∀ (outputs : List (String × PyValue)) (route : RouteNodeState)
          (r : NodeRunResult) (current : String),
        route.node_run_result = some r →
        alookup outputs "answer" = some (.str current) →
        alookup r.outputs "answer" = none →
        updateOutputsOnSucceeded outputs .answer route
          = .ok (aset outputs "answer" (.str (pyStrip (current ++ "\n" ++ ""))))) := by
  refine ⟨by rfl, ?_, ?_⟩
  · intro outputs route r current a h1 h2 h3 h4
    simp [updateOutputsOnSucceeded, h1, h2, h3, h4]
  · intro outputs route r current h1 h2 h3
    rcases hE : r.outputs.isEmpty with _ | _
    · simp [updateOutputsOnSucceeded, h1, h2, h3, hE]
    · simp [updateOutputsOnSucceeded, h1, h2, h3, hE]

/-- C6: with several outgoing edges of which at least one is conditioned, the
executor's selection equals the specification's: only conditioned edges are
evaluated, in list order, the first true condition wins, unconditional
siblings are never taken, and no winner means no chosen branch (the path
terminates); over the concrete conditional graph the unconditional sibling
`n2` is skipped and the true-conditioned `n3` is taken. -/
theorem claim_C6 :
    (∀ (check : RunCondition → String → Bool) (edges : List Edge),
        selectConditionalBranch check edges = specConditionalWinner check edges)
    ∧ (∀ (check : RunCondition → String → Bool) (edges : List Edge) (n : String),
        selectConditionalBranch check edges = some n →
        ∃ e, e ∈ edges ∧ ∃ cond, e.run_condition = some cond
          ∧ check cond e.target_node_id = true ∧ e.target_node_id = n)
    ∧ (run envC6 502 Pool.empty).map eventName
        = ["GraphRunStarted", "NodeRunStarted a", "NodeRunSucceeded a",
           "NodeRunStarted n3", "NodeRunSucceeded n3", "GraphRunSucceeded"] :=
  ⟨selectConditional_eq_spec, selectConditional_sound, rfl⟩

/-- C7: a node's succeeded outputs are inserted into the variable pool
recursively — spec-modelled pool: the inserted value is retrievable at
`[node_id] ++ keys`, and for a dictionary value each child is additionally
retrievable at the path extended with its key; in particular after adding
`{a: {b: 1}}` under node `n`, `Get([n,a]) = {b:1}` and `Get([n,a,b]) = 1`. -/
theorem claim_C7 (pool : Pool) (node_id : String) (keys : List String)
    (entries : List (String × PyValue)) (ck : String) (cv : PyValue)
    (hnd : (entries.map Prod.fst).Nodup) (hc : (ck, cv) ∈ entries) :
    (∀ (v : PyValue),
      Pool.get (append_variables_recursively pool node_id keys v) (node_id :: keys)
        = some v)
    ∧ Pool.get (append_variables_recursively pool node_id keys (.dict entries))
        (node_id :: (keys ++ [ck])) = some cv := by
  constructor
  · intro v
    exact append_get_here v pool node_id keys
  · show appendEntries (Pool.add pool (node_id :: keys) (.dict entries)) node_id keys
        entries (node_id :: (keys ++ [ck])) = some cv
    exact appendEntries_get_child entries _ node_id keys ck cv hc hnd

/-- C7 witness: adding `{a: {b: 1}}` under node `n` into the empty pool. -/
theorem claim_C7_witness :
    Pool.get (append_variables_recursively Pool.empty "n" ["a"] (.dict [("b", .int 1)]))
        ["n", "a"] = some (.dict [("b", .int 1)])
    ∧ Pool.get (append_variables_recursively Pool.empty "n" ["a"] (.dict [("b", .int 1)]))
        ["n", "a", "b"] = some (.int 1) :=
  have h := claim_C7 Pool.empty "n" ["a"] [("b", .int 1)] "b" (.int 1)
    (by simp) (List.mem_singleton.2 rfl)
  ⟨h.1 (.dict [("b", .int 1)]), h.2⟩

/-- C8: when a node's item sequence ends in the task-stopped (cancellation)
exception, the node runner marks the route state failed with reason
`"Workflow stopped."`, emits a final `NodeRunFailed` with that error after
the forwarded non-terminal events, returns normally (no re-raise), and
leaves the runtime state untouched. -/
theorem claim_C8 (node_id : String) (node_type : NodeType) (tags : PTags) :
    ∀ (items : List NodeItem), (∀ item ∈ items, item.isRunCompleted = false) →
      ∀ (route : RouteNodeState) (st : RuntimeState),
      (consumeItems node_id node_type tags items .taskStopped route st).2.1
          = { route with status := .failed, failed_reason := some "Workflow stopped." }
      ∧ (consumeItems node_id node_type tags items .taskStopped route st).2.2.1 = st
      ∧ (consumeItems node_id node_type tags items .taskStopped route st).2.2.2 = .normal
      ∧ ∃ pre, (consumeItems node_id node_type tags items .taskStopped route st).1
          = pre ++ [.nodeRunFailed "Workflow stopped." node_id
              { route with status := .failed, failed_reason := some "Workflow stopped." }
              tags]
          ∧ ∀ e ∈ pre, isNodeTerminal e = false := by
  intro items
  induction items with
  | nil =>
    intro _ route st
    exact ⟨rfl, rfl, rfl, [], rfl, by simp⟩
  | cons item rest ih =>
    intro hnc route st
    have hnc' : ∀ x ∈ rest, NodeItem.isRunCompleted x = false :=
      fun x hx => hnc x (List.mem_cons_of_mem _ hx)
    cases item with
    | runCompleted r =>
      exact absurd (hnc _ (List.mem_cons_self _ _)) (by simp [NodeItem.isRunCompleted])
    | runStreamChunk chunk =>
      obtain ⟨h1, h2, h3, pre, hpre, hin⟩ := ih hnc' route st
      rw [consumeItems_cons_chunk]
      refine ⟨h1, h2, h3, .nodeRunStreamChunk node_id chunk tags :: pre, ?_, ?_⟩
      · show Event.nodeRunStreamChunk node_id chunk tags
            :: (consumeItems node_id node_type tags rest .taskStopped route st).1 = _
        rw [hpre]
        rfl
      · intro x hx
        rcases List.mem_cons.1 hx with rfl | hx
        · rfl
        · exact hin x hx
    | runRetrieverResource =>
      obtain ⟨h1, h2, h3, pre, hpre, hin⟩ := ih hnc' route st
      rw [consumeItems_cons_retriever]
      refine ⟨h1, h2, h3, .nodeRunRetrieverResource node_id tags :: pre, ?_, ?_⟩
      · show Event.nodeRunRetrieverResource node_id tags
            :: (consumeItems node_id node_type tags rest .taskStopped route st).1 = _
        rw [hpre]
        rfl
      · intro x hx
        rcases List.mem_cons.1 hx with rfl | hx
        · rfl
        · exact hin x hx
    | iterationEvent =>
      obtain ⟨h1, h2, h3, pre, hpre, hin⟩ := ih hnc' route st
      rw [consumeItems_cons_iteration]
      refine ⟨h1, h2, h3, .iterationEvent tags :: pre, ?_, ?_⟩
      · show Event.iterationEvent tags
            :: (consumeItems node_id node_type tags rest .taskStopped route st).1 = _
        rw [hpre]
        rfl
      · intro x hx
        rcases List.mem_cons.1 hx with rfl | hx
        · rfl
        · exact hin x hx

/-- C8 witness: a one-chunk node cancelled by the task-stopped exception. -/
theorem claim_C8_witness :
    (consumeItems "n" .llm ⟨none, none⟩ [.runStreamChunk "x"] .taskStopped
        ⟨0, "n", .running, 0, none, none⟩ (initState Pool.empty)).2.1
      = ⟨0, "n", .failed, 0, some "Workflow stopped.", none⟩
    ∧ (consumeItems "n" .llm ⟨none, none⟩ [.runStreamChunk "x"] .taskStopped
        ⟨0, "n", .running, 0, none, none⟩ (initState Pool.empty)).2.2.1
      = initState Pool.empty
    ∧ (consumeItems "n" .llm ⟨none, none⟩ [.runStreamChunk "x"] .taskStopped
        ⟨0, "n", .running, 0, none, none⟩ (initState Pool.empty)).2.2.2 = .normal
    ∧ ∃ pre, (consumeItems "n" .llm ⟨none, none⟩ [.runStreamChunk "x"] .taskStopped
        ⟨0, "n", .running, 0, none, none⟩ (initState Pool.empty)).1
        = pre ++ [.nodeRunFailed "Workflow stopped." "n"
            ⟨0, "n", .failed, 0, some "Workflow stopped.", none⟩ ⟨none, none⟩]
        ∧ ∀ e ∈ pre, isNodeTerminal e = false :=
  claim_C8 "n" .llm ⟨none, none⟩ [.runStreamChunk "x"] (by decide)
    ⟨0, "n", .running, 0, none, none⟩ (initState Pool.empty)

/-- Unfolding of `_run_node`: the started event, then the item loop's events,
with the tuple projections exposed. -/
theorem run_node_eq (node_id : String) (node_type : NodeType) (behavior : NodeBehavior)
    (route : RouteNodeState) (predecessor_node_id : Option String) (tags : PTags)
    (st : RuntimeState) :
    run_node node_id node_type behavior route predecessor_node_id tags st
      = (.nodeRunStarted node_id route.id route.index predecessor_node_id tags
           :: (consumeItems node_id node_type tags behavior.items behavior.ending
                route st).1,
         (consumeItems node_id node_type tags behavior.items behavior.ending
            route st).2) := rfl

/-- C10: a `RunCompleted` item whose result status is neither `SUCCEEDED` nor
`FAILED` makes the node runner record the result on the route state, stop
consuming further items (the rest of the sequence and its ending are never
reached), and emit neither `NodeRunSucceeded` nor `NodeRunFailed`: the node
invocation yields a `NodeRunStarted` with no terminal event after it, returns
normally, and leaves the runtime state untouched. -/
theorem claim_C10 (node_id : String) (node_type : NodeType) (pre post : List NodeItem)
    (r : NodeRunResult) (ending : NodeEnding) (route : RouteNodeState)
    (predecessor_node_id : Option String) (tags : PTags) (st : RuntimeState)
    (hpre : ∀ item ∈ pre, item.isRunCompleted = false)
    (hs : r.status ≠ .succeeded) (hf : r.status ≠ .failed) :
    (run_node node_id node_type ⟨pre ++ .runCompleted r :: post, ending⟩ route
        predecessor_node_id tags st).2.1.node_run_result = some r
    ∧ (run_node node_id node_type ⟨pre ++ .runCompleted r :: post, ending⟩ route
        predecessor_node_id tags st).2.1.status = route.status
    ∧ (run_node node_id node_type ⟨pre ++ .runCompleted r :: post, ending⟩ route
        predecessor_node_id tags st).2.2.1 = st
    ∧ (run_node node_id node_type ⟨pre ++ .runCompleted r :: post, ending⟩ route
        predecessor_node_id tags st).2.2.2 = .normal
    ∧ (run_node node_id node_type ⟨pre ++ .runCompleted r :: post, ending⟩ route
        predecessor_node_id tags st).1.head?
        = some (.nodeRunStarted node_id route.id route.index predecessor_node_id tags)
    ∧ (∀ e ∈ (run_node node_id node_type ⟨pre ++ .runCompleted r :: post, ending⟩ route
        predecessor_node_id tags st).1.tail, isNodeTerminal e = false)
    ∧ ∀ (post' : List NodeItem) (ending' : NodeEnding),
        run_node node_id node_type ⟨pre ++ .runCompleted r :: post', ending'⟩ route
            predecessor_node_id tags st
          = run_node node_id node_type ⟨pre ++ .runCompleted r :: post, ending⟩ route
              predecessor_node_id tags st := by
  obtain ⟨h0, h1, h2, h3, h4⟩ :=
    consumeItems_running node_id node_type tags r hs hf pre hpre post post ending ending
      route st
  have hr : r.status = .running := by
    cases hstat : r.status
    · rfl
    · exact absurd hstat hs
    · exact absurd hstat hf
  rw [run_node_eq]
  refine ⟨?_, ?_, h2, h3, rfl, ?_, ?_⟩
  · rw [h1]
    rfl
  · rw [h1]
    simp [RouteNodeState.set_finished, hr]
  · intro e he
    exact h4 e he
  · intro post' ending'
    have h0' :=
      (consumeItems_running node_id node_type tags r hs hf pre hpre post' post ending'
        ending route st).1
    rw [run_node_eq]
    show (Event.nodeRunStarted node_id route.id route.index predecessor_node_id tags
        :: (consumeItems node_id node_type tags (pre ++ .runCompleted r :: post') ending'
              route st).1,
      (consumeItems node_id node_type tags (pre ++ .runCompleted r :: post') ending'
          route st).2) = _
    rw [h0']

/-- C10 witness: a running-status completion between a forwarded chunk and a
never-consumed tail, under an exception-raising ending that is never
reached. -/
theorem claim_C10_witness :
    (run_node "n" .llm ⟨[.runStreamChunk "x"]
          ++ .runCompleted ⟨.running, [], none, none⟩ :: [.runStreamChunk "y"],
        .raiseExn "z"⟩ ⟨0, "n", .running, 0, none, none⟩ none ⟨none, none⟩
        (initState Pool.empty)).2.1.node_run_result
      = some ⟨.running, [], none, none⟩
    ∧ (run_node "n" .llm ⟨[.runStreamChunk "x"]
          ++ .runCompleted ⟨.running, [], none, none⟩ :: [.runStreamChunk "y"],
        .raiseExn "z"⟩ ⟨0, "n", .running, 0, none, none⟩ none ⟨none, none⟩
        (initState Pool.empty)).2.1.status = .running
    ∧ (run_node "n" .llm ⟨[.runStreamChunk "x"]
          ++ .runCompleted ⟨.running, [], none, none⟩ :: [.runStreamChunk "y"],
        .raiseExn "z"⟩ ⟨0, "n", .running, 0, none, none⟩ none ⟨none, none⟩
        (initState Pool.empty)).2.2.1 = initState Pool.empty
    ∧ (run_node "n" .llm ⟨[.runStreamChunk "x"]
          ++ .runCompleted ⟨.running, [], none, none⟩ :: [.runStreamChunk "y"],
        .raiseExn "z"⟩ ⟨0, "n", .running, 0, none, none⟩ none ⟨none, none⟩
        (initState Pool.empty)).2.2.2 = .normal
    ∧ (run_node "n" .llm ⟨[.runStreamChunk "x"]
          ++ .runCompleted ⟨.running, [], none, none⟩ :: [.runStreamChunk "y"],
        .raiseExn "z"⟩ ⟨0, "n", .running, 0, none, none⟩ none ⟨none, none⟩
        (initState Pool.empty)).1.head?
      = some (.nodeRunStarted "n" 0 0 none ⟨none, none⟩)
    ∧ (∀ e ∈ (run_node "n" .llm ⟨[.runStreamChunk "x"]
          ++ .runCompleted ⟨.running, [], none, none⟩ :: [.runStreamChunk "y"],
        .raiseExn "z"⟩ ⟨0, "n", .running, 0, none, none⟩ none ⟨none, none⟩
        (initState Pool.empty)).1.tail, isNodeTerminal e = false)
    ∧ ∀ (post' : List NodeItem) (ending' : NodeEnding),
        run_node "n" .llm ⟨[.runStreamChunk "x"]
            ++ .runCompleted ⟨.running, [], none, none⟩ :: post', ending'⟩
          ⟨0, "n", .running, 0, none, none⟩ none ⟨none, none⟩ (initState Pool.empty)
          = run_node "n" .llm ⟨[.runStreamChunk "x"]
              ++ .runCompleted ⟨.running, [], none, none⟩ :: [.runStreamChunk "y"],
            .raiseExn "z"⟩ ⟨0, "n", .running, 0, none, none⟩ none ⟨none, none⟩
            (initState Pool.empty) :=
  claim_C10 "n" .llm [.runStreamChunk "x"] [.runStreamChunk "y"]
    ⟨.running, [], none, none⟩ (.raiseExn "z") ⟨0, "n", .running, 0, none, none⟩
    none ⟨none, none⟩ (initState Pool.empty) (by decide) (by decide) (by decide)

/-- C9 counterexample: the index-stamping section is unsynchronized, so two
preemptive parallel workers racing through it can stamp the same index (both
read `node_run_steps = 1` before either writes back), and a worker preempted
between stamping and enqueueing lets a higher-stamped event reach the queue
first: the index values of successive started events are then not strictly
monotonically increasing. -/
theorem claim_C9_counterexample :
    (runSchedule [true, false, true, false, true, false, true, false] raceInit).queue
        = [2, 2]
    ∧ ¬ List.Chain' (fun a b => a < b)
        ((runSchedule [true, false, true, false, true, false, true, false] raceInit).queue)
    ∧ (runSchedule [true, true, true, false, false, false, false, true] raceInit).queue
        = [3, 2]
    ∧ ¬ List.Chain' (fun a b => a < b)
        ((runSchedule [true, true, true, false, false, false, false, true] raceInit).queue) :=
  ⟨rfl,
   fun h => by
     have h2 : (2 : Nat) < 2 := List.chain'_pair.1 h
     omega,
   rfl,
   fun h => by
     have h2 : (3 : Nat) < 2 := List.chain'_pair.1 h
     omega⟩

end GraphEngine
